import Mathlib

/-!
Verification of the local-pr comment system (store + service layers).

The development is a shallow embedding of the TypeScript sources
`src/commentStore.ts`, `src/commentService.ts` and the path/persistence
helpers they use.  JavaScript strings are modelled as Lean `String`
(sequences of Unicode scalar values); JavaScript numbers that the program
uses (line numbers, ids) are integral and are modelled as `Int`/`Nat`.
Filesystem state is modelled as a total map from path to optional file
content, and the on-disk comment store as a total map from target file to
its decoded comment collection (a missing storage file decodes to `[]`,
exactly as `readJsonlGzip` returns `[]` for a missing file).
-/

namespace LocalPR

/-! ## JavaScript string primitives -/

/-- Whitespace class used by `String.prototype.trim` (ECMAScript
`TrimString`): tab, LF, VT, FF, CR, space, NBSP, Ogham space mark, the
U+2000..U+200A spaces, LS, PS, NNBSP, MMSP, ideographic space, and BOM. -/
def isJsWhitespace (c : Char) : Bool :=
  let n := c.toNat
  n = 9 || n = 10 || n = 11 || n = 12 || n = 13 || n = 32 ||
  n = 0xA0 || n = 0x1680 || (0x2000 ≤ n && n ≤ 0x200A) ||
  n = 0x2028 || n = 0x2029 || n = 0x202F || n = 0x205F || n = 0x3000 ||
  n = 0xFEFF

/-- Trim of a character list at both ends, as `String.prototype.trim`. -/
def trimChars (l : List Char) : List Char :=
  ((l.dropWhile isJsWhitespace).reverse.dropWhile isJsWhitespace).reverse

/-- Model of `s.trim()`. -/
def jsTrim (s : String) : String := ⟨trimChars s.data⟩

/-- Model of `String.prototype.split` with a single-character separator:
`splitChar sep l` returns the (always non-empty) list of separator-free
segments, preserving empty segments, as in JavaScript. -/
def splitChar (sep : Char) : List Char → List (List Char)
  | [] => [[]]
  | c :: cs =>
    match splitChar sep cs with
    | [] => [[c]]
    | x :: xs => if c = sep then [] :: x :: xs else (c :: x) :: xs

/-- Model of `s.split(sep)` for a one-character separator. -/
def jsSplit (sep : Char) (s : String) : List String :=
  (splitChar sep s.data).map String.mk

/-- Decimal digit test (`c` between `'0'` and `'9'`). -/
def isDigitCh (c : Char) : Bool := 48 ≤ c.toNat && c.toNat ≤ 57

/-- Hexadecimal digit test, both cases. -/
def isHexDigitCh (c : Char) : Bool :=
  isDigitCh c || (65 ≤ c.toNat && c.toNat ≤ 70) || (97 ≤ c.toNat && c.toNat ≤ 102)

/-- Character for a single decimal digit value. -/
def digitChar (n : Nat) : Char := Char.ofNat (48 + n)

/-- Structural helper for `natToChars`; the fuel dominates the number of
digits. -/
def natToCharsAux : Nat → Nat → List Char
  | 0, _ => []
  | fuel + 1, n =>
    if n < 10 then [digitChar n]
    else natToCharsAux fuel (n / 10) ++ [digitChar (n % 10)]

/-- Decimal digit characters of a natural number, most significant first
(the output of `Number.prototype.toString` for non-negative integers). -/
def natToChars (n : Nat) : List Char := natToCharsAux (n + 1) n

/-- Model of `Number.prototype.toString` on integral values. -/
def intToString (n : Int) : String :=
  if n < 0 then ⟨'-' :: natToChars (-n).toNat⟩ else ⟨natToChars n.toNat⟩

/-- Numeric value of a list of decimal digit characters. -/
def digitsToNat (l : List Char) : Nat :=
  l.foldl (fun a c => a * 10 + (c.toNat - 48)) 0

/-- Numeric value of a single hexadecimal digit character, if any. -/
def hexVal (c : Char) : Option Nat :=
  let n := c.toNat
  if 48 ≤ n ∧ n ≤ 57 then some (n - 48)
  else if 65 ≤ n ∧ n ≤ 70 then some (n - 55)
  else if 97 ≤ n ∧ n ≤ 102 then some (n - 87)
  else none

/-- Numeric value of a list of hexadecimal digit characters. -/
def hexDigitsToNat (l : List Char) : Nat :=
  l.foldl (fun a c => a * 16 + ((hexVal c).getD 0)) 0

/-- Application of the sign recognised by `parseInt`. -/
def signApply (neg : Bool) (n : Nat) : Int := if neg then -(n : Int) else (n : Int)

/-- Model of the global `parseInt(s)` with no radix argument: skip leading
whitespace, read an optional sign, detect a `0x`/`0X` prefix (hexadecimal),
then take the longest prefix of digits; `none` models `NaN`. -/
def parseIntJS (s : String) : Option Int :=
  let l := s.data.dropWhile isJsWhitespace
  let p :=
    match l with
    | c :: r => if c = '-' then (true, r) else if c = '+' then (false, r) else (false, l)
    | [] => (false, l)
  let neg := p.1
  let l1 := p.2
  let hex :=
    match l1 with
    | c0 :: c1 :: _ => c0 = '0' && (c1 = 'x' || c1 = 'X')
    | _ => false
  if hex then
    let ds := (l1.drop 2).takeWhile isHexDigitCh
    if ds = [] then none else some (signApply neg (hexDigitsToNat ds))
  else
    let ds := l1.takeWhile isDigitCh
    if ds = [] then none else some (signApply neg (digitsToNat ds))

/-- Model of `parseInt(s) || 0`: `NaN` (and `0`, `-0`) collapse to `0`. -/
def parseIntOr0 (s : String) : Int := (parseIntJS s).getD 0

/-- JavaScript truthiness of an optional string (`undefined` and `""` are
falsy). -/
def jsTruthyStr (o : Option String) : Bool :=
  match o with
  | none => false
  | some s => s ≠ ""

/-- Model of `a || b` on strings: `a` when provided and non-empty. -/
def jsOrString (o : Option String) (d : String) : String :=
  match o with
  | none => d
  | some s => if s = "" then d else s

/-! ## Data model (`src/types.ts`) -/

/-- Severity union type `error | warning | info`. -/
inductive Severity
  | error
  | warning
  | info
deriving DecidableEq, Repr

/-- Author union type `claude | user`. -/
inductive Author
  | claude
  | user
deriving DecidableEq, Repr

/-- One entry of a comment's `replies` array. -/
structure Reply where
  author : String
  message : String
  timestamp : String
deriving DecidableEq, Repr

/-- The `ReviewComment` record of `src/types.ts`.  Optional TypeScript
fields are `Option`s; `resolved`/`outdated` are optional booleans exactly
as in the source type. -/
structure ReviewComment where
  id : String
  file : String
  line : Int
  endLine : Option Int := none
  line_content : String
  diff_hunk : Option String := none
  message : String
  severity : Severity
  title : Option String := none
  resolved : Option Bool := none
  outdated : Option Bool := none
  created_at : String
  author : Option Author := none
  replies : Option (List Reply) := none
deriving DecidableEq, Repr

/-- JavaScript truthiness of an optional boolean field such as
`comment.resolved`. -/
def truthyFlag (o : Option Bool) : Bool := o.getD false

/-- The argument record of `store.create`
(`Omit<ReviewComment, 'id' | 'created_at'>`). -/
structure CommentFields where
  file : String
  line : Int
  endLine : Option Int := none
  line_content : String
  diff_hunk : Option String := none
  message : String
  severity : Severity
  title : Option String := none
  resolved : Option Bool := none
  outdated : Option Bool := none
  author : Option Author := none
  replies : Option (List Reply) := none
deriving DecidableEq, Repr

/-- Spread of a `CommentFields` record together with a fresh id and
creation timestamp, as in `const newComment = { ...comment, id, created_at }`. -/
def mkComment (f : CommentFields) (id created_at : String) : ReviewComment :=
  { id := id, file := f.file, line := f.line, endLine := f.endLine,
    line_content := f.line_content, diff_hunk := f.diff_hunk,
    message := f.message, severity := f.severity, title := f.title,
    resolved := f.resolved, outdated := f.outdated,
    created_at := created_at, author := f.author, replies := f.replies }

/-- The subset of `Partial<ReviewComment>` actually passed to
`store.update` by this program (`message`, `title`, `resolved`,
`outdated`). -/
structure Updates where
  message : Option String := none
  title : Option String := none
  resolved : Option Bool := none
  outdated : Option Bool := none
deriving DecidableEq, Repr

/-- Model of `Object.assign(comment, updates)` for the fields above: a
field named in `updates` overwrites the comment's field, the rest are kept. -/
def applyUpdates (u : Updates) (c : ReviewComment) : ReviewComment :=
  { c with
    message := u.message.getD c.message,
    title := match u.title with | none => c.title | some t => some t,
    resolved := match u.resolved with | none => c.resolved | some b => some b,
    outdated := match u.outdated with | none => c.outdated | some b => some b }

/-! ## Filesystem and store state -/

/-- The workspace filesystem: a total map from path to optional UTF-8 file
content (`none` models a missing file; `fs.existsSync` is `Option.isSome`). -/
def FileSystem := String → Option String

/-- Model of `path.join` on a normalized directory and a relative path. -/
def pathJoin (a b : String) : String := a ++ "/" ++ b

/-- The decoded content of the per-file store `.review/files/`: a total map
from target file to its comment collection.  A target file that was never
saved maps to `[]` (as `readJsonlGzip` returns `[]` for a missing file). -/
def StoreState := String → List ReviewComment

/-- The store before any save. -/
def emptyStore : StoreState := fun _ => []

namespace Store

/-- Model of `store.load`: the persisted collection of one target file. -/
def load (st : StoreState) (targetFile : String) : List ReviewComment :=
  st targetFile

/-- Model of `store.save` (`writeJsonlGzip` of the full collection). -/
def save (st : StoreState) (targetFile : String) (comments : List ReviewComment) :
    StoreState :=
  fun g => if g = targetFile then comments else st g

/-- Model of `store.loadActive`: drop resolved and outdated comments. -/
def loadActive (st : StoreState) (targetFile : String) : List ReviewComment :=
  (load st targetFile).filter fun c => !truthyFlag c.resolved && !truthyFlag c.outdated

/-- Model of `store.findById`. -/
def findById (st : StoreState) (targetFile commentId : String) :
    Option ReviewComment :=
  (load st targetFile).find? fun c => c.id = commentId

/-- Maximal numeric id of a collection, computed exactly as
`comments.reduce((max, c) => Math.max(max, parseInt(c.id) || 0), 0)`. -/
def maxIdOf (cs : List ReviewComment) : Int :=
  cs.foldl (fun m c => max m (parseIntOr0 c.id)) 0

/-- Model of `store.create`: load, compute `max + 1` as the new id, stamp
`created_at` (the current time is passed in as `now`), append, save,
return the new comment. -/
def create (st : StoreState) (targetFile : String) (fields : CommentFields)
    (now : String) : ReviewComment × StoreState :=
  let cs := load st targetFile
  let newComment := mkComment fields (intToString (maxIdOf cs + 1)) now
  (newComment, save st targetFile (cs ++ [newComment]))

/-- Update of the first comment with a given id in a list, mirroring
`comments.find(...)` followed by in-place `Object.assign`; returns the
updated comment when found. -/
def updateFirst (commentId : String) (u : Updates) :
    List ReviewComment → Option ReviewComment × List ReviewComment
  | [] => (none, [])
  | c :: rest =>
    if c.id = commentId then (some (applyUpdates u c), applyUpdates u c :: rest)
    else
      let r := updateFirst commentId u rest
      (r.1, c :: r.2)

/-- Model of `store.update`.  The final boolean records whether `save` was
invoked (no write happens when the id is not found). -/
def update (st : StoreState) (targetFile commentId : String) (u : Updates) :
    Option ReviewComment × StoreState × Bool :=
  let cs := load st targetFile
  match updateFirst commentId u cs with
  | (none, _) => (none, st, false)
  | (some c', cs') => (some c', save st targetFile cs', true)

/-- Model of `store.remove`: filter the id out and save only when the
length changed.  The final boolean records whether `save` was invoked. -/
def remove (st : StoreState) (targetFile commentId : String) :
    Bool × StoreState × Bool :=
  let cs := load st targetFile
  let filtered := cs.filter fun c => c.id ≠ commentId
  if filtered.length = cs.length then (false, st, false)
  else (true, save st targetFile filtered, true)

/-- Append of a reply to the first comment with a given id, mirroring
`comments.find(...)` then `comment.replies.push(...)` with the
`if (!comment.replies) comment.replies = []` initialisation; `none` when
the id is not found. -/
def addReplyList (commentId : String) (r : Reply) :
    List ReviewComment → Option (List ReviewComment)
  | [] => none
  | c :: rest =>
    if c.id = commentId then
      some ({ c with replies := some ((c.replies.getD []) ++ [r]) } :: rest)
    else (addReplyList commentId r rest).map (c :: ·)

/-- Model of `store.addReply` (the reply timestamp is the current time,
passed in as `now`).  The final boolean records whether `save` was invoked. -/
def addReply (st : StoreState) (targetFile commentId author message now : String) :
    Bool × StoreState × Bool :=
  let cs := load st targetFile
  match addReplyList commentId ⟨author, message, now⟩ cs with
  | none => (false, st, false)
  | some cs' => (true, save st targetFile cs', true)

/-- Model of `store.getLineContent`: line `line` (1-indexed) of the live
file under the workspace root, or `""` when uninitialised, missing or out
of range. -/
def getLineContent (ws : Option String) (fs : FileSystem) (file : String)
    (line : Int) : String :=
  match ws with
  | none => ""
  | some w =>
    match fs (pathJoin w file) with
    | none => ""
    | some content =>
      let lines := splitChar '\n' content.data
      let lineIndex := line - 1
      if 0 ≤ lineIndex ∧ lineIndex < (lines.length : Int) then
        ⟨lines.getD lineIndex.toNat []⟩
      else ""

/-- Model of `store.isOutdated`: `false` when the store is uninitialised or
the comment has no (falsy, i.e. empty) `line_content`; `true` when the
owning file is missing or the anchor line is out of range; otherwise a
trimmed comparison of the current line against the stored snapshot. -/
def isOutdated (ws : Option String) (fs : FileSystem) (c : ReviewComment) : Bool :=
  match ws with
  | none => false
  | some w =>
    if c.line_content = "" then false
    else
      match fs (pathJoin w c.file) with
      | none => true
      | some content =>
        let lines := splitChar '\n' content.data
        let lineIndex := c.line - 1
        if lineIndex < 0 ∨ (lines.length : Int) ≤ lineIndex then true
        else decide (trimChars (lines.getD lineIndex.toNat []) ≠ trimChars c.line_content.data)

end Store

/-! ## Service layer (`src/commentService.ts`)

The UI adapter is modelled by a single boolean `ui` recording whether
`init` has installed an adapter (`uiAdapter !== undefined`); the visual
thread operations themselves have no effect on the store and are outside
all claims, so they are dropped.  Current time and the live filesystem are
explicit parameters where the corresponding operation reads them. -/

namespace Service

/-- The options record of `service.addComment`. -/
structure AddOptions where
  severity : Option Severity := none
  title : Option String := none
  endLine : Option Int := none
  diff_hunk : Option String := none
  author : Option Author := none
  skipCreateThread : Bool := false
deriving Repr

/-- Model of `service.addComment`: `undefined` without an adapter,
otherwise `store.create` with the defaulted fields (note `options.title ||
'User Comment'` treats an empty title as missing). -/
def addComment (ui : Bool) (ws : Option String) (fs : FileSystem)
    (st : StoreState) (file : String) (line : Int) (message : String)
    (opts : AddOptions) (now : String) : Option ReviewComment × StoreState :=
  if !ui then (none, st)
  else
    let fields : CommentFields :=
      { file := file, line := line, endLine := opts.endLine,
        line_content := Store.getLineContent ws fs file line,
        diff_hunk := opts.diff_hunk,
        message := message,
        severity := opts.severity.getD Severity.info,
        title := some (jsOrString opts.title "User Comment"),
        resolved := some false, outdated := some false,
        author := some (opts.author.getD Author.claude),
        replies := some [] }
    let r := Store.create st file fields now
    (some r.1, r.2)

/-- Model of `service.removeComment`. -/
def removeComment (ui : Bool) (st : StoreState) (targetFile commentId : String) :
    Bool × StoreState :=
  if !ui then (false, st)
  else
    let r := Store.remove st targetFile commentId
    (r.1, r.2.1)

/-- Model of `service.resolveComment`: `store.update` with
`\x7b resolved: true \x7d`, success iff the comment was found. -/
def resolveComment (ui : Bool) (st : StoreState) (targetFile commentId : String) :
    Bool × StoreState :=
  if !ui then (false, st)
  else
    match Store.update st targetFile commentId { resolved := some true } with
    | (some _, st', _) => (true, st')
    | (none, st', _) => (false, st')

/-- Model of `service.addReply`. -/
def addReply (ui : Bool) (st : StoreState) (targetFile commentId : String)
    (author : Author) (message now : String) : Bool × StoreState :=
  if !ui then (false, st)
  else
    let a := match author with | Author.claude => "claude" | Author.user => "user"
    let r := Store.addReply st targetFile commentId a message now
    (r.1, r.2.1)

/-- Model of `service.checkOutdatedForFile`: for each loaded comment that
is stale on disk and not yet flagged, persist `\x7b outdated: true \x7d`. -/
def checkOutdatedForFile (ui : Bool) (ws : Option String) (fs : FileSystem)
    (st : StoreState) (changedFile : String) : StoreState :=
  if !ui then st
  else
    (Store.load st changedFile).foldl
      (fun acc c =>
        if Store.isOutdated ws fs c && !truthyFlag c.outdated then
          (Store.update acc changedFile c.id { outdated := some true }).2.1
        else acc)
      st

/-- The input record of `service.handleCommentOrReply`. -/
structure CommentInput where
  file : String
  line : Int
  text : String
  existingCommentId : Option String := none
deriving Repr

/-- Result kind of `handleCommentOrReply`. -/
inductive HandleKind
  | comment
  | reply
deriving DecidableEq, Repr

/-- Result record of `handleCommentOrReply`. -/
structure HandleResult where
  kind : HandleKind
  success : Bool
  comment : Option ReviewComment := none
deriving Repr

/-- Title derived for a brand-new comment: first line of the text, trimmed,
truncated to 50 characters plus `"..."` when longer. -/
def derivedTitle (text : String) : String :=
  let firstLine := trimChars ((splitChar '\n' text.data).headD [])
  if firstLine.length > 50 then ⟨firstLine.take 50 ++ ('.' :: '.' :: '.' :: [])⟩
  else ⟨firstLine⟩

/-- Model of `service.handleCommentOrReply`: a truthy `existingCommentId`
routes to `addReply` with author `user`; otherwise a new root comment
authored by `user` is created with UI-thread creation suppressed and the
derived title. -/
def handleCommentOrReply (ui : Bool) (ws : Option String) (fs : FileSystem)
    (st : StoreState) (input : CommentInput) (now : String) :
    HandleResult × StoreState :=
  if jsTruthyStr input.existingCommentId then
    let eid := input.existingCommentId.getD ""
    let r := addReply ui st input.file eid Author.user input.text now
    ({ kind := HandleKind.reply, success := r.1 }, r.2)
  else
    let r := addComment ui ws fs st input.file input.line input.text
      { severity := some Severity.info, title := some (derivedTitle input.text),
        author := some Author.user, skipCreateThread := true } now
    match r with
    | (some c, st') =>
      ({ kind := HandleKind.comment, success := true, comment := some c }, st')
    | (none, st') =>
      ({ kind := HandleKind.comment, success := false, comment := none }, st')

end Service

/-! ## Operation traces -/

/-- A store-level session operation on one target file (for the id
assignment and reuse claims). -/
inductive StoreOp
  | createOp (fields : CommentFields) (now : String)
  | removeOp (commentId : String)

/-- One store-level step: apply the operation and record any issued id. -/
def stepStoreOp (targetFile : String) (p : StoreState × List String)
    (op : StoreOp) : StoreState × List String :=
  match op with
  | StoreOp.createOp fields now =>
    let r := Store.create p.1 targetFile fields now
    (r.2, p.2 ++ [r.1.id])
  | StoreOp.removeOp commentId =>
    ((Store.remove p.1 targetFile commentId).2.1, p.2)

/-- Run of a store-level session on one target file, accumulating the ids
issued by `create`. -/
def runStoreOps (st : StoreState) (targetFile : String) (ops : List StoreOp) :
    StoreState × List String :=
  ops.foldl (stepStoreOp targetFile) (st, [])

/-- Fold of a sequence of `store.create` calls (field record and observed
clock value for each call) on one target file. -/
def createMany (st : StoreState) (targetFile : String)
    (inputs : List (CommentFields × String)) : StoreState :=
  inputs.foldl (fun s p => (Store.create s targetFile p.1 p.2).2) st

/-- A service-level operation, carrying the filesystem snapshot and clock
value the operation observes. -/
inductive ServiceOp
  | addC (file : String) (line : Int) (message : String)
      (opts : Service.AddOptions) (fs : FileSystem) (now : String)
  | rmC (file commentId : String)
  | resC (file commentId : String)
  | repC (file commentId : String) (author : Author) (message now : String)
  | chkC (file : String) (fs : FileSystem)

/-- One service-level step (UI effects dropped; `ui` is the installed
adapter flag, `ws` the workspace root from `init`). -/
def applyServiceOp (ui : Bool) (ws : Option String) (st : StoreState) :
    ServiceOp → StoreState
  | ServiceOp.addC file line message opts fs now =>
    (Service.addComment ui ws fs st file line message opts now).2
  | ServiceOp.rmC file commentId => (Service.removeComment ui st file commentId).2
  | ServiceOp.resC file commentId => (Service.resolveComment ui st file commentId).2
  | ServiceOp.repC file commentId author message now =>
    (Service.addReply ui st file commentId author message now).2
  | ServiceOp.chkC file fs => Service.checkOutdatedForFile ui ws fs st file

/-- Run of a sequence of service operations. -/
def runServiceOps (ui : Bool) (ws : Option String) (st : StoreState)
    (ops : List ServiceOp) : StoreState :=
  ops.foldl (applyServiceOp ui ws) st

/-- Test for the specific operation `removeComment targetFile commentId`
(decidable even though operations carry filesystem snapshots). -/
def isRemoveOf (targetFile commentId : String) : ServiceOp → Bool
  | ServiceOp.rmC f i => f = targetFile && i = commentId
  | _ => false

/-! ## JSONL persistence (`readJsonlGzip` / `writeJsonlGzip`)

The gzip layer (`zlib.gzipSync` / `zlib.gunzipSync`) is a bijective coding
of the text (RFC 1952) and is abstracted away: the model works on the
decompressed UTF-8 text.  `JSON.stringify` is modelled by an emitter
following ECMAScript `QuoteJSONString` (two-character escapes for
`\" \\ \b \t \n \f \r`, lowercase `\u00xx` for other control characters,
all other scalar values verbatim); `JSON.parse` is modelled by a parser
for the whitespace-free JSON emitted for comment records, with numbers
restricted to the integers the program stores. -/

/-- Model of `Array.prototype.join` with a one-character separator. -/
def joinSep (sep : Char) : List (List Char) → List Char
  | [] => []
  | [x] => x
  | x :: y :: ys => x ++ (sep :: joinSep sep (y :: ys))

/-- Lowercase hexadecimal digit character. -/
def hexDigitL (n : Nat) : Char :=
  if n < 10 then Char.ofNat (48 + n) else Char.ofNat (87 + n)

/-- Uppercase hexadecimal digit character. -/
def hexDigitU (n : Nat) : Char :=
  if n < 10 then Char.ofNat (48 + n) else Char.ofNat (55 + n)

/-- Escape of one character inside a JSON string literal
(`QuoteJSONString`). -/
def escapeJsonChar (c : Char) : List Char :=
  if c = '"' then ['\\', '"']
  else if c = '\\' then ['\\', '\\']
  else if c.toNat = 8 then ['\\', 'b']
  else if c.toNat = 9 then ['\\', 't']
  else if c.toNat = 10 then ['\\', 'n']
  else if c.toNat = 12 then ['\\', 'f']
  else if c.toNat = 13 then ['\\', 'r']
  else if c.toNat < 32 then
    ['\\', 'u', '0', '0', hexDigitL (c.toNat / 16), hexDigitL (c.toNat % 16)]
  else [c]

/-- JSON string literal for a string value. -/
def emitStr (s : String) : List Char :=
  '"' :: ((s.data.flatMap escapeJsonChar) ++ ['"'])

/-- JSON representation of an integral number. -/
def emitInt (n : Int) : List Char :=
  if n < 0 then '-' :: natToChars (-n).toNat else natToChars n.toNat

/-- The JSON values occurring as fields of a serialised comment: strings,
integral numbers, booleans, and the `replies` array of flat string
objects. -/
inductive JVal
  | jstr (s : String)
  | jnum (n : Int)
  | jbool (b : Bool)
  | jarr (objs : List (List (String × String)))
deriving DecidableEq, Repr

/-- Emission of a `"key":"value"` member of a flat string object. -/
def emitStrPair (kv : String × String) : List Char :=
  emitStr kv.1 ++ (':' :: emitStr kv.2)

/-- Emission of a flat string object such as one reply. -/
def emitStrObj (ps : List (String × String)) : List Char :=
  '{' :: (joinSep ',' (ps.map emitStrPair) ++ ['}'])

/-- Emission of a field value. -/
def emitJVal : JVal → List Char
  | JVal.jstr s => emitStr s
  | JVal.jnum n => emitInt n
  | JVal.jbool b => if b then ['t', 'r', 'u', 'e'] else ['f', 'a', 'l', 's', 'e']
  | JVal.jarr objs => '[' :: (joinSep ',' (objs.map emitStrObj) ++ [']'])

/-- Emission of a `"key":value` member. -/
def emitPair (kv : String × JVal) : List Char :=
  emitStr kv.1 ++ (':' :: emitJVal kv.2)

/-- Emission of the comment object from its member list. -/
def emitObj (pairs : List (String × JVal)) : List Char :=
  '{' :: (joinSep ',' (pairs.map emitPair) ++ ['}'])

/-- String form of a severity value. -/
def sevString : Severity → String
  | Severity.error => "error"
  | Severity.warning => "warning"
  | Severity.info => "info"

/-- Severity from its string form. -/
def sevOfString (s : String) : Option Severity :=
  if s = "error" then some Severity.error
  else if s = "warning" then some Severity.warning
  else if s = "info" then some Severity.info
  else none

/-- String form of an author value. -/
def authorString : Author → String
  | Author.claude => "claude"
  | Author.user => "user"

/-- Author from its string form. -/
def authorOfString (s : String) : Option Author :=
  if s = "claude" then some Author.claude
  else if s = "user" then some Author.user
  else none

/-- Member list of one serialised reply, in the insertion order of the
object literal pushed by `addReply`. -/
def replyPairs (r : Reply) : List (String × String) :=
  [("author", r.author), ("message", r.message), ("timestamp", r.timestamp)]

/-- Optional member: present exactly when the field is not `undefined`
(`JSON.stringify` skips `undefined`-valued properties). -/
def optPairJ {α : Type} (k : String) (o : Option α) (f : α → JVal) :
    List (String × JVal) :=
  match o with
  | none => []
  | some x => [(k, f x)]

/-- Member list of a serialised comment, in the insertion order of the
object built by `service.addComment` / `store.create`. -/
def commentPairs (c : ReviewComment) : List (String × JVal) :=
  [("file", JVal.jstr c.file), ("line", JVal.jnum c.line)]
  ++ optPairJ "endLine" c.endLine JVal.jnum
  ++ [("line_content", JVal.jstr c.line_content)]
  ++ optPairJ "diff_hunk" c.diff_hunk JVal.jstr
  ++ [("message", JVal.jstr c.message),
      ("severity", JVal.jstr (sevString c.severity))]
  ++ optPairJ "title" c.title JVal.jstr
  ++ optPairJ "resolved" c.resolved JVal.jbool
  ++ optPairJ "outdated" c.outdated JVal.jbool
  ++ optPairJ "author" c.author (fun a => JVal.jstr (authorString a))
  ++ optPairJ "replies" c.replies (fun rs => JVal.jarr (rs.map replyPairs))
  ++ [("id", JVal.jstr c.id), ("created_at", JVal.jstr c.created_at)]

/-- Model of `JSON.stringify(comment)`. -/
def stringifyComment (c : ReviewComment) : List Char :=
  emitObj (commentPairs c)

/-- Model of `comments.map(c => JSON.stringify(c)).join('\n')` followed by
gzip (the compression layer being abstracted away). -/
def writeJsonl (comments : List ReviewComment) : String :=
  ⟨joinSep '\n' (comments.map stringifyComment)⟩

/-- Construction of a scalar value, rejecting surrogate halves and values
past U+10FFFF. -/
def mkScalar (n : Nat) : Option Char :=
  if _h : n < 0xD800 ∨ (0xDFFF < n ∧ n < 0x110000) then some (Char.ofNat n)
  else none

/-- Short escape table of JSON string literals. -/
def escCharTable (e : Char) : Option Char :=
  if e = '"' then some '"'
  else if e = '\\' then some '\\'
  else if e = '/' then some '/'
  else if e = 'b' then some (Char.ofNat 8)
  else if e = 'f' then some (Char.ofNat 12)
  else if e = 'n' then some '\n'
  else if e = 'r' then some (Char.ofNat 13)
  else if e = 't' then some (Char.ofNat 9)
  else none

/-- Value of four hexadecimal digit characters. -/
def hexQuad (a b c d : Char) : Option Nat := do
  let va ← hexVal a
  let vb ← hexVal b
  let vc ← hexVal c
  let vd ← hexVal d
  some (((va * 16 + vb) * 16 + vc) * 16 + vd)

/-- Parse of a `\uXXXX` escape after the `\u`: a `\u` escape denoting a
surrogate half has no scalar-string counterpart and is rejected (the
emitter never produces one; `JSON.parse` would combine paired surrogates). -/
def parseUEsc : List Char → Option (Char × List Char)
  | a :: b :: c2 :: d :: rest2 =>
    (hexQuad a b c2 d).bind fun n => (mkScalar n).map (fun ch => (ch, rest2))
  | _ => none

/-- Parse of the escape following a backslash. -/
def parseEsc : List Char → Option (Char × List Char)
  | [] => none
  | e :: rest1 =>
    if e = 'u' then parseUEsc rest1
    else (escCharTable e).map (fun c' => (c', rest1))

/-- Parser body for a JSON string literal after the opening quote, with
fuel counting decoded characters (each consumes at least one input
character): returns the decoded characters and the remainder after the
closing quote.  Unescaped control characters are rejected as in
`JSON.parse`. -/
def parseStrBodyF : Nat → List Char → Option (List Char × List Char)
  | 0, _ => none
  | _ + 1, [] => none
  | fuel + 1, c :: rest =>
    if c = '"' then some ([], rest)
    else if c = '\\' then
      (parseEsc rest).bind fun p =>
        (parseStrBodyF fuel p.2).map (fun q => (p.1 :: q.1, q.2))
    else if c.toNat < 32 then none
    else (parseStrBodyF fuel rest).map (fun q => (c :: q.1, q.2))

/-- Parser for the body of a JSON string literal (after the opening
quote). -/
def parseStrBody (l : List Char) : Option (List Char × List Char) :=
  parseStrBodyF (l.length + 1) l

/-- Parser for an integral JSON number. -/
def parseJNum (l : List Char) : Option (Int × List Char) :=
  match l with
  | [] => none
  | c :: rest =>
    if c = '-' then
      (if rest.takeWhile isDigitCh = [] then none
       else some (-(digitsToNat (rest.takeWhile isDigitCh) : Int),
         rest.dropWhile isDigitCh))
    else
      (if (c :: rest).takeWhile isDigitCh = [] then none
       else some ((digitsToNat ((c :: rest).takeWhile isDigitCh) : Int),
         (c :: rest).dropWhile isDigitCh))

/-- Read of an opening quote. -/
def expectQuote : List Char → Option (List Char)
  | '"' :: r => some r
  | _ => none

/-- Read of a colon followed by an opening quote. -/
def expectColonQuote : List Char → Option (List Char)
  | ':' :: '"' :: r => some r
  | _ => none

/-- Read of a colon. -/
def expectColon : List Char → Option (List Char)
  | ':' :: r => some r
  | _ => none

/-- Read of the member separator: a comma (`true`, continue) or the
closing brace (`false`, stop). -/
def commaOrBrace : List Char → Option (Bool × List Char)
  | ',' :: r => some (true, r)
  | '}' :: r => some (false, r)
  | _ => none

/-- Read of the element separator: a comma (`true`, continue) or the
closing bracket (`false`, stop). -/
def commaOrBracket : List Char → Option (Bool × List Char)
  | ',' :: r => some (true, r)
  | ']' :: r => some (false, r)
  | _ => none

/-- Parser for the members of a flat string object, consuming the closing
brace; called with at least one member ahead.  The fuel bounds the number
of members and is instantiated with the input length, which any parsable
member list cannot exceed. -/
def parseStrPairs : Nat → List Char → Option (List (String × String) × List Char)
  | 0, _ => none
  | fuel + 1, l =>
    (expectQuote l).bind fun rest =>
    (parseStrBody rest).bind fun kp =>
    (expectColonQuote kp.2).bind fun r3 =>
    (parseStrBody r3).bind fun vp =>
    (commaOrBrace vp.2).bind fun s =>
    if s.1 then
      (parseStrPairs fuel s.2).map (fun p => ((⟨kp.1⟩, ⟨vp.1⟩) :: p.1, p.2))
    else some ([(⟨kp.1⟩, ⟨vp.1⟩)], s.2)

/-- Contents of one object of the replies array, from after its opening
brace to after its closing brace. -/
def objContents (rest : List Char) : Option (List (String × String) × List Char) :=
  match rest with
  | '}' :: r1 => some ([], r1)
  | _ => parseStrPairs (rest.length + 1) rest

/-- Read of an opening brace. -/
def expectBrace : List Char → Option (List Char)
  | '{' :: r => some r
  | _ => none

/-- Parser for the elements of a non-empty array of flat string objects,
consuming the closing bracket; the fuel bounds the number of elements. -/
def parseObjList : Nat → List Char → Option (List (List (String × String)) × List Char)
  | 0, _ => none
  | fuel + 1, l =>
    (expectBrace l).bind fun rest =>
    (objContents rest).bind fun po =>
    (commaOrBracket po.2).bind fun s =>
    if s.1 then (parseObjList fuel s.2).map (fun p => (po.1 :: p.1, p.2))
    else some ([po.1], s.2)

/-- Read of the keyword rest `rue` of `true`. -/
def expectTrue : List Char → Option (List Char)
  | 'r' :: 'u' :: 'e' :: r => some r
  | _ => none

/-- Read of the keyword rest `alse` of `false`. -/
def expectFalse : List Char → Option (List Char)
  | 'a' :: 'l' :: 's' :: 'e' :: r => some r
  | _ => none

/-- Elements of an array from after its opening bracket to after its
closing bracket. -/
def arrElems (rest : List Char) : Option (List (List (String × String)) × List Char) :=
  match rest with
  | ']' :: r1 => some ([], r1)
  | _ => parseObjList (rest.length + 1) rest

/-- Parser for one field value of a comment object. -/
def parseFlatVal (l : List Char) : Option (JVal × List Char) :=
  match l with
  | [] => none
  | c :: rest =>
    if c = '"' then (parseStrBody rest).map (fun p => (JVal.jstr ⟨p.1⟩, p.2))
    else if c = 't' then (expectTrue rest).map (fun r => (JVal.jbool true, r))
    else if c = 'f' then (expectFalse rest).map (fun r => (JVal.jbool false, r))
    else if c = '[' then (arrElems rest).map (fun p => (JVal.jarr p.1, p.2))
    else (parseJNum (c :: rest)).map (fun p => (JVal.jnum p.1, p.2))

/-- Parser for the members of the comment object, consuming the closing
brace; called with at least one member ahead; the fuel bounds the number
of members. -/
def parsePairs : Nat → List Char → Option (List (String × JVal) × List Char)
  | 0, _ => none
  | fuel + 1, l =>
    (expectQuote l).bind fun rest =>
    (parseStrBody rest).bind fun kp =>
    (expectColon kp.2).bind fun r2 =>
    (parseFlatVal r2).bind fun vp =>
    (commaOrBrace vp.2).bind fun s =>
    if s.1 then
      (parsePairs fuel s.2).map (fun p => ((⟨kp.1⟩, vp.1) :: p.1, p.2))
    else some ([(⟨kp.1⟩, vp.1)], s.2)

/-- Parse of one JSONL line into the member list of its object; the whole
line must be consumed, as `JSON.parse` rejects trailing input. -/
def parseCommentObj (l : List Char) : Option (List (String × JVal)) :=
  match l with
  | '{' :: rest =>
    (match rest with
     | ['}'] => some []
     | _ =>
       (parsePairs (rest.length + 1) rest).bind fun p =>
         if p.2 = [] then some p.1 else none)
  | _ => none

/-- Property access on the parsed object (the serialised objects carry no
duplicate keys). -/
def lookupJ (k : String) : List (String × JVal) → Option JVal
  | [] => none
  | (k', v) :: rest => if k' = k then some v else lookupJ k rest

/-- View of a field expected to be a string. -/
def asStr : Option JVal → Option String
  | some (JVal.jstr s) => some s
  | _ => none

/-- View of a field expected to be an integral number. -/
def asInt : Option JVal → Option Int
  | some (JVal.jnum n) => some n
  | _ => none

/-- View of an optional string field. -/
def optStrField : Option JVal → Option (Option String)
  | none => some none
  | some (JVal.jstr s) => some (some s)
  | some _ => none

/-- View of an optional integral field. -/
def optIntField : Option JVal → Option (Option Int)
  | none => some none
  | some (JVal.jnum n) => some (some n)
  | some _ => none

/-- View of an optional boolean field. -/
def optBoolField : Option JVal → Option (Option Bool)
  | none => some none
  | some (JVal.jbool b) => some (some b)
  | some _ => none

/-- View of an optional author field. -/
def optAuthorField : Option JVal → Option (Option Author)
  | none => some none
  | some (JVal.jstr s) => (authorOfString s).map some
  | some _ => none

/-- View of one parsed reply object through the `Reply` type. -/
def replyOfPairs (ps : List (String × String)) : Option Reply := do
  let a ← ps.lookup "author"
  let m ← ps.lookup "message"
  let t ← ps.lookup "timestamp"
  some ⟨a, m, t⟩

/-- View of an optional replies field. -/
def optRepliesField : Option JVal → Option (Option (List Reply))
  | none => some none
  | some (JVal.jarr objs) => (objs.mapM replyOfPairs).map some
  | some _ => none

/-- View of the parsed object through the `ReviewComment` type (the
`as ReviewComment` cast under which the loaded object is used). -/
def commentOfPairs (ps : List (String × JVal)) : Option ReviewComment := do
  let id ← asStr (lookupJ "id" ps)
  let file ← asStr (lookupJ "file" ps)
  let line ← asInt (lookupJ "line" ps)
  let endLine ← optIntField (lookupJ "endLine" ps)
  let line_content ← asStr (lookupJ "line_content" ps)
  let diff_hunk ← optStrField (lookupJ "diff_hunk" ps)
  let message ← asStr (lookupJ "message" ps)
  let severity ← (asStr (lookupJ "severity" ps)).bind sevOfString
  let title ← optStrField (lookupJ "title" ps)
  let resolved ← optBoolField (lookupJ "resolved" ps)
  let outdated ← optBoolField (lookupJ "outdated" ps)
  let created_at ← asStr (lookupJ "created_at" ps)
  let author ← optAuthorField (lookupJ "author" ps)
  let replies ← optRepliesField (lookupJ "replies" ps)
  some { id, file, line, endLine, line_content, diff_hunk, message,
         severity, title, resolved, outdated, created_at, author, replies }

/-- Model of `JSON.parse(line) as ReviewComment` on one line. -/
def parseCommentLine (l : List Char) : Option ReviewComment :=
  (parseCommentObj l).bind commentOfPairs

/-- Model of `readJsonlGzip` on the decompressed text: split on newlines,
drop blank lines, parse each line; any parse failure is caught by the
enclosing `try` and degrades to the empty collection. -/
def readJsonl (content : String) : List ReviewComment :=
  let lines := (splitChar '\n' content.data).filter fun ln => !(trimChars ln).isEmpty
  match lines.mapM parseCommentLine with
  | some cs => cs
  | none => []

/-! ## Storage paths (`getCommentsPath` / `decodeFilePath`)

`encodeURIComponent` / `decodeURIComponent` are modelled per ECMAScript:
the unreserved set is `A-Z a-z 0-9 - _ . ! ~ * ' ( )`, every other scalar
value is percent-encoded as its uppercase-hex UTF-8 bytes, and decoding
performs a strict UTF-8 decode of percent escapes (overlong forms,
surrogates and out-of-range values throw, modelled as `none`).
`path.join` is modelled as concatenation with `/` (the workspace root is a
normalized directory path), and `path.basename(p, ext)` per Node: the last
slash-separated component, with `ext` stripped when it is a proper suffix
of that component — a component equal to `ext` is returned whole. -/

/-- Unreserved characters of `encodeURIComponent`. -/
def isUriUnreserved (c : Char) : Bool :=
  let n := c.toNat
  (48 ≤ n && n ≤ 57) || (65 ≤ n && n ≤ 90) || (97 ≤ n && n ≤ 122) ||
  n = 45 || n = 95 || n = 46 || n = 33 || n = 126 || n = 42 || n = 39 ||
  n = 40 || n = 41

/-- UTF-8 bytes of a Unicode scalar value. -/
def utf8Bytes (n : Nat) : List Nat :=
  if n < 0x80 then [n]
  else if n < 0x800 then [0xC0 + n / 64, 0x80 + n % 64]
  else if n < 0x10000 then [0xE0 + n / 4096, 0x80 + n / 64 % 64, 0x80 + n % 64]
  else [0xF0 + n / 262144, 0x80 + n / 4096 % 64, 0x80 + n / 64 % 64,
        0x80 + n % 64]

/-- Percent escape of one byte, uppercase hex. -/
def pctByte (b : Nat) : List Char := ['%', hexDigitU (b / 16), hexDigitU (b % 16)]

/-- Encoding of one character under `encodeURIComponent`. -/
def encodeOne (c : Char) : List Char :=
  if isUriUnreserved c then [c] else (utf8Bytes c.toNat).flatMap pctByte

/-- Model of `encodeURIComponent` on character lists. -/
def encodeURIChars (l : List Char) : List Char := l.flatMap encodeOne

/-- Model of `encodeURIComponent`. -/
def encodeURIComponentM (s : String) : String := ⟨encodeURIChars s.data⟩

/-- Combined value of two hexadecimal digit characters. -/
def hexDuo (a b : Char) : Option Nat := do
  let x ← hexVal a
  let y ← hexVal b
  some (16 * x + y)

/-- Continuation-byte read of the UTF-8 decoder inside
`decodeURIComponent`: a `%`-escape whose byte is in `0x80..0xBF`, yielding
its 6 payload bits and the remainder. -/
def contByte (l : List Char) : Option (Nat × List Char) :=
  match l with
  | '%' :: h3 :: h4 :: r =>
    (hexDuo h3 h4).bind fun b2 =>
      if 0x80 ≤ b2 ∧ b2 < 0xC0 then some (b2 - 0x80, r) else none
  | _ => none

/-- Strict UTF-8 sequence decode after a leading byte `b`: reads the
required continuation escapes, rejecting overlong forms, surrogate halves
and values past U+10FFFF, as the ECMAScript `Decode` operation does. -/
def decodeSeq (b : Nat) (r1 : List Char) : Option (Char × List Char) :=
  if b < 0x80 then (mkScalar b).map (fun ch => (ch, r1))
  else if b < 0xC2 then none
  else if b < 0xE0 then
    (contByte r1).bind fun p2 =>
      (mkScalar ((b - 0xC0) * 64 + p2.1)).map (fun ch => (ch, p2.2))
  else if b < 0xF0 then
    (contByte r1).bind fun p2 =>
      (contByte p2.2).bind fun p3 =>
        if (b - 0xE0) * 4096 + p2.1 * 64 + p3.1 < 0x800 then none
        else (mkScalar ((b - 0xE0) * 4096 + p2.1 * 64 + p3.1)).map
          (fun ch => (ch, p3.2))
  else if b < 0xF5 then
    (contByte r1).bind fun p2 =>
      (contByte p2.2).bind fun p3 =>
        (contByte p3.2).bind fun p4 =>
          if (b - 0xF0) * 262144 + p2.1 * 4096 + p3.1 * 64 + p4.1 < 0x10000 then
            none
          else
            (mkScalar ((b - 0xF0) * 262144 + p2.1 * 4096 + p3.1 * 64 + p4.1)).map
              (fun ch => (ch, p4.2))
  else none

/-- Read of the two hexadecimal digits directly after a `%`. -/
def hexPair : List Char → Option (Nat × List Char)
  | h1 :: h2 :: r => (hexDuo h1 h2).map (fun b => (b, r))
  | _ => none

/-- Model of `decodeURIComponent` on character lists: literal characters
pass through, percent escapes are decoded as strict UTF-8; `none` models a
thrown `URIError`.  The fuel counts decoded characters; every step
consumes at least one input character, so the wrapper's `length + 1` never
runs out first. -/
def decodeURICharsF : Nat → List Char → Option (List Char)
  | 0, _ => none
  | _ + 1, [] => some []
  | fuel + 1, c :: rest =>
    if c = '%' then
      (hexPair rest).bind fun q =>
        (decodeSeq q.1 q.2).bind fun p =>
          (decodeURICharsF fuel p.2).map (p.1 :: ·)
    else (decodeURICharsF fuel rest).map (c :: ·)

/-- Model of `decodeURIComponent` on character lists. -/
def decodeURIChars (l : List Char) : Option (List Char) :=
  decodeURICharsF (l.length + 1) l

/-- Model of `decodeURIComponent`. -/
def decodeURIComponentM (s : String) : Option String :=
  (decodeURIChars s.data).map String.mk

/-- Model of `targetFile.replace(/\\/g, '/')`. -/
def replaceBackslash (s : String) : String :=
  ⟨s.data.map fun c => if c = '\\' then '/' else c⟩

/-- Model of `getCommentsPath` relative to the initialised workspace root. -/
def getCommentsPathM (wsPath targetFile : String) : String :=
  wsPath ++ "/.review/files/" ++
    encodeURIComponentM (replaceBackslash targetFile) ++ ".jsonl.gz"

/-- Last slash-separated component of a path. -/
def lastComponent (l : List Char) : List Char :=
  (l.reverse.takeWhile (fun c => c ≠ '/')).reverse

/-- Removal of a suffix, when present. -/
def dropSuffix (l suf : List Char) : Option (List Char) :=
  if suf.length ≤ l.length ∧ l.drop (l.length - suf.length) = suf then
    some (l.take (l.length - suf.length))
  else none

/-- Model of Node's `path.basename(p, ext)` for paths without trailing
slashes, including the documented quirk that a basename equal to `ext` is
returned unchanged. -/
def nodeBasename (p ext : String) : String :=
  let base := lastComponent p.data
  if base = ext.data then ⟨base⟩
  else
    match dropSuffix base ext.data with
    | some pre => ⟨pre⟩
    | none => ⟨base⟩

/-- Model of `decodeFilePath`; `none` models a thrown `URIError`. -/
def decodeFilePathM (jsonlPath : String) : Option String :=
  decodeURIComponentM (nodeBasename jsonlPath ".jsonl.gz")

/-- Canonical id issued to the (k+1)-st comment of a collection created
from empty: the decimal numeral for k+1. -/
def canonicalId (k : Nat) : String := intToString ((k : Int) + 1)

/-- Specification-side predicate of the outdated determination, following
the spec's words: the owning file no longer exists under the workspace
root, or the 1-indexed anchor line falls outside the current file's line
count, or the current line trimmed of surrounding whitespace differs from
the stored `line_content` trimmed. -/
def outdatedSpec (w : String) (fs : FileSystem) (c : ReviewComment) : Prop :=
  match fs (pathJoin w c.file) with
  | none => True
  | some content =>
    let lines := splitChar '\n' content.data
    ¬(1 ≤ c.line ∧ c.line ≤ (lines.length : Int)) ∨
    trimChars (lines.getD (c.line - 1).toNat []) ≠ trimChars c.line_content.data

/-- Sample workspace filesystem used to instantiate theorems at concrete
inputs. -/
def sampleFs : FileSystem :=
  fun p => if p = "/ws/a.ts" then some "const x = 1;\nlet y = 2;" else none

/-- Sample field record used to instantiate theorems at concrete inputs. -/
def sampleFields : CommentFields :=
  { file := "a.ts", line := 5, line_content := "const x = 1;",
    message := "fix this", severity := Severity.warning,
    title := some "T", resolved := some false, outdated := some false,
    author := some Author.claude, replies := some [] }

/-- Sample persisted comment used to instantiate theorems at concrete
inputs. -/
def sampleComment : ReviewComment :=
  { id := "1", file := "a.ts", line := 5, line_content := "const x = 1;",
    message := "fix this", severity := Severity.warning,
    title := some "T", resolved := some false, outdated := some false,
    created_at := "t0", author := some Author.claude, replies := some [] }

/-- Sample single-comment store used to instantiate theorems at concrete
inputs. -/
def sampleStore : StoreState := fun g => if g = "a.ts" then [sampleComment] else []

/-- Sample store whose only comment is flagged outdated, used to
instantiate theorems at concrete inputs. -/
def sampleStoreOutdated : StoreState :=
  fun g => if g = "a.ts" then [{ sampleComment with outdated := some true }] else []

set_option maxRecDepth 100000

/-! ## Supporting lemmas -/

theorem toNat_ofNat_lt (m : Nat) (h : m < 55296) : (Char.ofNat m).toNat = m := by
  have hv : Nat.isValidChar m := Or.inl h
  unfold Char.ofNat
  rw [dif_pos hv]
  rfl

theorem toNat_ofNat_valid (m : Nat) (hv : Nat.isValidChar m) :
    (Char.ofNat m).toNat = m := by
  unfold Char.ofNat
  rw [dif_pos hv]
  rfl

theorem splitChar_cons (sep c : Char) (cs : List Char) :
    splitChar sep (c :: cs) =
      match splitChar sep cs with
      | [] => [[c]]
      | x :: xs => if c = sep then [] :: x :: xs else (c :: x) :: xs := rfl

theorem splitChar_ne_nil (sep : Char) : ∀ l, splitChar sep l ≠ []
  | [] => by simp [splitChar]
  | c :: cs => by
    have ih := splitChar_ne_nil sep cs
    rw [splitChar_cons]
    rcases h : splitChar sep cs with _ | ⟨x, xs⟩
    · exact absurd h ih
    · by_cases hc : c = sep <;> simp [hc]

theorem splitChar_no_sep (sep : Char) : ∀ l, sep ∉ l → splitChar sep l = [l]
  | [], _ => rfl
  | c :: cs, h => by
    have hc : c ≠ sep := fun hc => h (hc ▸ List.mem_cons_self c cs)
    have ih := splitChar_no_sep sep cs (fun hm => h (List.mem_cons_of_mem c hm))
    rw [splitChar_cons, ih]
    simp [hc]

theorem splitChar_append_sep (sep : Char) :
    ∀ x t, sep ∉ x → splitChar sep (x ++ sep :: t) = x :: splitChar sep t
  | [], t, _ => by
    show splitChar sep (sep :: t) = [] :: splitChar sep t
    rw [splitChar_cons]
    rcases h : splitChar sep t with _ | ⟨y, ys⟩
    · exact absurd h (splitChar_ne_nil sep t)
    · simp
  | c :: cs, t, h => by
    have hc : c ≠ sep := fun hc => h (hc ▸ List.mem_cons_self c cs)
    have ih := splitChar_append_sep sep cs t (fun hm => h (List.mem_cons_of_mem c hm))
    show splitChar sep (c :: (cs ++ sep :: t)) = (c :: cs) :: splitChar sep t
    rw [splitChar_cons, ih]
    simp [hc]

theorem splitChar_joinSep (sep : Char) :
    ∀ xss, xss ≠ [] → (∀ xs ∈ xss, sep ∉ xs) →
      splitChar sep (joinSep sep xss) = xss
  | [], h, _ => absurd rfl h
  | [x], _, hx => by
    rw [show joinSep sep [x] = x from rfl]
    exact splitChar_no_sep sep x (hx x (List.mem_singleton_self x))
  | x :: y :: ys, _, hx => by
    rw [show joinSep sep (x :: y :: ys) = x ++ sep :: joinSep sep (y :: ys) from rfl]
    rw [splitChar_append_sep sep x _ (hx x (List.mem_cons_self x _))]
    rw [splitChar_joinSep sep (y :: ys) (by simp)
      (fun xs hm => hx xs (List.mem_cons_of_mem x hm))]

theorem trimChars_ne_nil (c : Char) (l : List Char)
    (h : isJsWhitespace c = false) : trimChars (c :: l) ≠ [] := by
  intro hnil
  unfold trimChars at hnil
  rw [List.reverse_eq_nil_iff, List.dropWhile_eq_nil_iff] at hnil
  have : isJsWhitespace c = true := by
    apply hnil
    rw [List.dropWhile_cons_of_neg (by simp [h]), List.mem_reverse]
    exact List.mem_cons_self c l
  simp [h] at this

theorem digitChar_toNat (d : Nat) (h : d < 10) : (digitChar d).toNat = 48 + d := by
  unfold digitChar
  exact toNat_ofNat_lt _ (by omega)

theorem natToCharsAux_irrel :
    ∀ f1 f2 n, n < f1 → n < f2 → natToCharsAux f1 n = natToCharsAux f2 n := by
  intro f1
  induction f1 with
  | zero => intro f2 n h; omega
  | succ f1 ih =>
    intro f2 n h1 h2
    cases f2 with
    | zero => omega
    | succ f2 =>
      show natToCharsAux (f1 + 1) n = natToCharsAux (f2 + 1) n
      unfold natToCharsAux
      by_cases hn : n < 10
      · rw [if_pos hn, if_pos hn]
      · rw [if_neg hn, if_neg hn,
          ih f2 (n / 10) (by omega) (by omega)]

theorem natToChars_eq (n : Nat) :
    natToChars n =
      if n < 10 then [digitChar n]
      else natToChars (n / 10) ++ [digitChar (n % 10)] := by
  show natToCharsAux (n + 1) n = _
  by_cases hn : n < 10
  · rw [if_pos hn]
    unfold natToCharsAux
    rw [if_pos hn]
  · rw [if_neg hn]
    show _ = natToCharsAux (n / 10 + 1) (n / 10) ++ [digitChar (n % 10)]
    conv_lhs => rw [natToCharsAux]
    rw [if_neg hn,
      natToCharsAux_irrel n (n / 10 + 1) (n / 10) (by omega) (by omega)]

theorem natToChars_ne_nil (n : Nat) : natToChars n ≠ [] := by
  rw [natToChars_eq]
  split <;> simp

theorem mem_natToChars_digit : ∀ n c, c ∈ natToChars n → isDigitCh c = true := by
  intro n
  induction n using Nat.strong_induction_on with
  | _ n ih =>
    intro c hc
    rw [natToChars_eq] at hc
    split at hc
    · next h =>
      rw [List.mem_singleton] at hc
      subst hc
      simp [isDigitCh, digitChar_toNat _ h]
      omega
    · next h =>
      rcases List.mem_append.1 hc with h1 | h1
      · exact ih (n / 10) (Nat.div_lt_self (by omega) (by omega)) c h1
      · rw [List.mem_singleton] at h1
        subst h1
        have : n % 10 < 10 := Nat.mod_lt _ (by omega)
        simp [isDigitCh, digitChar_toNat _ this]
        omega

theorem digitsToNat_append (l : List Char) (c : Char) :
    digitsToNat (l ++ [c]) = digitsToNat l * 10 + (c.toNat - 48) := by
  unfold digitsToNat
  rw [List.foldl_append]
  rfl

theorem digitsToNat_natToChars (n : Nat) : digitsToNat (natToChars n) = n := by
  induction n using Nat.strong_induction_on with
  | _ n ih =>
    rw [natToChars_eq]
    split
    · next h =>
      show digitsToNat [digitChar n] = n
      unfold digitsToNat
      simp [digitChar_toNat _ h]
    · next h =>
      rw [digitsToNat_append, ih (n / 10) (Nat.div_lt_self (by omega) (by omega))]
      have : n % 10 < 10 := Nat.mod_lt _ (by omega)
      rw [digitChar_toNat _ this]
      omega

theorem natToChars_head_pos (n : Nat) (hn : 1 ≤ n) :
    ∀ c, (natToChars n).head? = some c → 49 ≤ c.toNat := by
  induction n using Nat.strong_induction_on with
  | _ n ih =>
    intro c hc
    rw [natToChars_eq] at hc
    split at hc
    · next h =>
      simp at hc
      subst hc
      rw [digitChar_toNat _ h]
      omega
    · next h =>
      rcases hh : (natToChars (n / 10)).head? with _ | d
      · exact absurd (List.head?_eq_none_iff.1 hh) (natToChars_ne_nil _)
      · have hd := ih (n / 10) (Nat.div_lt_self (by omega) (by omega))
          (by omega : 1 ≤ n / 10) d hh
        rw [List.head?_append_of_ne_nil] at hc
        · rw [hh] at hc
          cases hc
          exact hd
        · exact natToChars_ne_nil _

theorem takeWhile_append_of (p : Char → Bool) (ds rest : List Char)
    (h1 : ∀ c ∈ ds, p c = true)
    (h2 : ∀ c, rest.head? = some c → p c = false) :
    (ds ++ rest).takeWhile p = ds ∧ (ds ++ rest).dropWhile p = rest := by
  induction ds with
  | nil =>
    simp only [List.nil_append]
    cases rest with
    | nil => simp
    | cons r rs =>
      have := h2 r rfl
      constructor
      · rw [List.takeWhile_cons_of_neg (by simp [this])]
      · rw [List.dropWhile_cons_of_neg (by simp [this])]
  | cons d ds ih =>
    have hd := h1 d (List.mem_cons_self d ds)
    have IH := ih (fun c hc => h1 c (List.mem_cons_of_mem d hc))
    constructor
    · rw [List.cons_append, List.takeWhile_cons_of_pos hd, IH.1]
    · rw [List.cons_append, List.dropWhile_cons_of_pos hd, IH.2]

theorem isJsWhitespace_digit (c : Char) (h : 48 ≤ c.toNat ∧ c.toNat ≤ 57) :
    isJsWhitespace c = false := by
  unfold isJsWhitespace
  simp only [Bool.or_eq_false_iff, decide_eq_false_iff_not, Bool.and_eq_false_iff]
  omega

theorem parseIntJS_natToChars (n : Nat) (hn : 1 ≤ n) :
    parseIntJS ⟨natToChars n⟩ = some (n : Int) := by
  obtain ⟨c, cs, hc⟩ : ∃ c cs, natToChars n = c :: cs := by
    rcases h : natToChars n with _ | ⟨c, cs⟩
    · exact absurd h (natToChars_ne_nil n)
    · exact ⟨c, cs, rfl⟩
  have hhead : 49 ≤ c.toNat := natToChars_head_pos n hn c (by rw [hc]; rfl)
  have hdig : ∀ x ∈ natToChars n, isDigitCh x = true := mem_natToChars_digit n
  have hdig' : ∀ x ∈ c :: cs, isDigitCh x = true := hc ▸ hdig
  have hcnum : 48 ≤ c.toNat ∧ c.toNat ≤ 57 := by
    have := hdig' c (List.mem_cons_self c cs)
    unfold isDigitCh at this
    simp at this
    omega
  unfold parseIntJS
  rw [show (String.mk (natToChars n)).data = natToChars n from rfl, hc]
  have hws : (c :: cs).dropWhile isJsWhitespace = c :: cs :=
    List.dropWhile_cons_of_neg (by simp [isJsWhitespace_digit c hcnum])
  rw [hws]
  have hcm : c ≠ '-' := by
    intro h
    subst h
    simp at hhead
  have hcp : c ≠ '+' := by
    intro h
    subst h
    simp at hhead
  have hc0 : c ≠ '0' := by
    intro h
    subst h
    simp at hhead
  simp only [hcm, if_false, hcp]
  have hhex :
      (match c :: cs with
        | c0 :: c1 :: _ => c0 = '0' && (c1 = 'x' || c1 = 'X')
        | _ => false) = false := by
    cases cs with
    | nil => rfl
    | cons c1 cs' => simp [hc0]
  simp only [hhex, if_neg, Bool.false_eq_true, if_false, ite_false]
  have htake : (c :: cs).takeWhile isDigitCh = c :: cs := by
    rw [List.takeWhile_eq_self_iff]
    exact hdig'
  rw [htake]
  have : c :: cs ≠ [] := by simp
  rw [if_neg this]
  show some (signApply false (digitsToNat (c :: cs))) = some (n : Int)
  rw [← hc, digitsToNat_natToChars]
  rfl

theorem parseIntOr0_intToString (k : Int) (hk : 1 ≤ k) :
    parseIntOr0 (intToString k) = k := by
  unfold intToString
  rw [if_neg (by omega)]
  unfold parseIntOr0
  rw [parseIntJS_natToChars k.toNat (by omega)]
  simp
  omega

theorem le_foldl_max (cs : List ReviewComment) :
    ∀ a : Int, a ≤ cs.foldl (fun m c => max m (parseIntOr0 c.id)) a := by
  induction cs with
  | nil => intro a; exact le_refl a
  | cons c rest ih =>
    intro a
    exact le_trans (le_max_left a (parseIntOr0 c.id)) (ih _)

theorem maxIdOf_nonneg (cs : List ReviewComment) : 0 ≤ Store.maxIdOf cs :=
  le_foldl_max cs 0

theorem mem_le_foldl_max :
    ∀ (cs : List ReviewComment) (a : Int) (c : ReviewComment), c ∈ cs →
      parseIntOr0 c.id ≤ cs.foldl (fun m c => max m (parseIntOr0 c.id)) a
  | [], _, _, h => absurd h (List.not_mem_nil _)
  | d :: rest, a, c, h => by
    rcases List.mem_cons.1 h with h1 | h1
    · subst h1
      exact le_trans (le_max_right a (parseIntOr0 c.id)) (le_foldl_max rest _)
    · exact mem_le_foldl_max rest _ c h1

theorem maxIdOf_append (cs : List ReviewComment) (c : ReviewComment) :
    Store.maxIdOf (cs ++ [c]) = max (Store.maxIdOf cs) (parseIntOr0 c.id) := by
  unfold Store.maxIdOf
  rw [List.foldl_append]
  rfl

theorem fresh_id_not_mem (cs : List ReviewComment) :
    intToString (Store.maxIdOf cs + 1) ∉ cs.map (·.id) := by
  intro hmem
  obtain ⟨c, hc, hid⟩ := List.mem_map.1 hmem
  have h1 : parseIntOr0 c.id ≤ Store.maxIdOf cs := mem_le_foldl_max cs 0 c hc
  have h2 : (1 : Int) ≤ Store.maxIdOf cs + 1 := by
    have := maxIdOf_nonneg cs
    omega
  rw [hid, parseIntOr0_intToString _ h2] at h1
  omega

theorem load_save (st : StoreState) (f : String) (cs : List ReviewComment) :
    Store.load (Store.save st f cs) f = cs := by
  simp [Store.load, Store.save]

theorem load_save_ne (st : StoreState) (f g : String) (cs : List ReviewComment)
    (h : g ≠ f) : Store.load (Store.save st f cs) g = Store.load st g := by
  simp [Store.load, Store.save, h]

theorem save_save (st : StoreState) (f : String) (cs cs' : List ReviewComment) :
    Store.save (Store.save st f cs) f cs' = Store.save st f cs' := by
  funext g
  simp only [Store.save]
  split <;> rfl

theorem applyUpdates_id (u : Updates) (c : ReviewComment) :
    (applyUpdates u c).id = c.id := rfl

theorem updateFirst_not_found (i : String) (u : Updates) :
    ∀ cs, (∀ c ∈ cs, c.id ≠ i) → Store.updateFirst i u cs = (none, cs)
  | [], _ => rfl
  | c :: rest, h => by
    have hc : c.id ≠ i := h c (List.mem_cons_self c rest)
    have ih := updateFirst_not_found i u rest fun d hd => h d (List.mem_cons_of_mem c hd)
    unfold Store.updateFirst
    rw [if_neg hc, ih]

theorem updateFirst_fst_isSome (i : String) (u : Updates) :
    ∀ cs, (∃ c ∈ cs, c.id = i) → ∃ c', (Store.updateFirst i u cs).1 = some c'
  | [], h => by simp at h
  | c :: rest, h => by
    by_cases hc : c.id = i
    · exact ⟨applyUpdates u c, by unfold Store.updateFirst; rw [if_pos hc]⟩
    · obtain ⟨d, hd, hdi⟩ := h
      rcases List.mem_cons.1 hd with h1 | h1
      · exact absurd (h1 ▸ hdi) hc
      · obtain ⟨c', hc'⟩ := updateFirst_fst_isSome i u rest ⟨d, h1, hdi⟩
        exact ⟨c', by unfold Store.updateFirst; rw [if_neg hc]; exact hc'⟩

theorem updateFirst_ids (i : String) (u : Updates) :
    ∀ cs, ((Store.updateFirst i u cs).2).map (·.id) = cs.map (·.id)
  | [] => rfl
  | c :: rest => by
    unfold Store.updateFirst
    by_cases hc : c.id = i
    · rw [if_pos hc]
      simp [applyUpdates_id]
    · rw [if_neg hc]
      simp only [List.map_cons]
      rw [updateFirst_ids i u rest]

theorem updateFirst_mem (i : String) (u : Updates) :
    ∀ cs c', c' ∈ (Store.updateFirst i u cs).2 →
      c' ∈ cs ∨ ∃ c ∈ cs, c.id = i ∧ c' = applyUpdates u c
  | [], c', h => Or.inl h
  | c :: rest, c', h => by
    unfold Store.updateFirst at h
    by_cases hc : c.id = i
    · rw [if_pos hc] at h
      rcases List.mem_cons.1 h with h1 | h1
      · exact Or.inr ⟨c, List.mem_cons_self c rest, hc, h1⟩
      · exact Or.inl (List.mem_cons_of_mem c h1)
    · rw [if_neg hc] at h
      rcases List.mem_cons.1 h with h1 | h1
      · exact Or.inl (h1 ▸ List.mem_cons_self c rest)
      · rcases updateFirst_mem i u rest c' h1 with h2 | ⟨d, hd, hdi, hde⟩
        · exact Or.inl (List.mem_cons_of_mem c h2)
        · exact Or.inr ⟨d, List.mem_cons_of_mem c hd, hdi, hde⟩

theorem applyUpdates_resolved_true (c : ReviewComment) :
    applyUpdates { resolved := some true } c = { c with resolved := some true } := rfl

theorem updateFirst_resolved_mem (i : String) :
    ∀ cs, (∃ c ∈ cs, c.id = i) →
      ∃ c' ∈ (Store.updateFirst i { resolved := some true } cs).2,
        c'.id = i ∧ c'.resolved = some true
  | [], h => by simp at h
  | c :: rest, h => by
    unfold Store.updateFirst
    by_cases hc : c.id = i
    · rw [if_pos hc]
      exact ⟨applyUpdates { resolved := some true } c, List.mem_cons_self _ _, hc, rfl⟩
    · rw [if_neg hc]
      obtain ⟨d, hd, hdi⟩ := h
      rcases List.mem_cons.1 hd with h1 | h1
      · exact absurd (h1 ▸ hdi) hc
      · obtain ⟨c', hc', hi, hr⟩ := updateFirst_resolved_mem i rest ⟨d, h1, hdi⟩
        exact ⟨c', List.mem_cons_of_mem c hc', hi, hr⟩

theorem updateFirst_cons_pos (i : String) (u : Updates) (c : ReviewComment)
    (rest : List ReviewComment) (h : c.id = i) :
    Store.updateFirst i u (c :: rest) =
      (some (applyUpdates u c), applyUpdates u c :: rest) := by
  unfold Store.updateFirst
  rw [if_pos h]

theorem updateFirst_cons_neg (i : String) (u : Updates) (c : ReviewComment)
    (rest : List ReviewComment) (h : ¬c.id = i) :
    Store.updateFirst i u (c :: rest) =
      ((Store.updateFirst i u rest).1, c :: (Store.updateFirst i u rest).2) := by
  conv_lhs => rw [Store.updateFirst]
  rw [if_neg h]

theorem updateFirst_resolved_idem (i : String) :
    ∀ cs,
      (Store.updateFirst i { resolved := some true }
        ((Store.updateFirst i { resolved := some true } cs).2)).2 =
      (Store.updateFirst i { resolved := some true } cs).2
  | [] => rfl
  | c :: rest => by
    by_cases hc : c.id = i
    · rw [updateFirst_cons_pos i _ c rest hc]
      rw [show ((some (applyUpdates { resolved := some true } c),
        applyUpdates { resolved := some true } c :: rest)).2 =
          applyUpdates { resolved := some true } c :: rest from rfl]
      rw [updateFirst_cons_pos i _ _ rest
        (show (applyUpdates { resolved := some true } c).id = i from hc)]
      rfl
    · rw [updateFirst_cons_neg i _ c rest hc]
      rw [show (((Store.updateFirst i { resolved := some true } rest).1,
        c :: (Store.updateFirst i { resolved := some true } rest).2)).2 =
          c :: (Store.updateFirst i { resolved := some true } rest).2 from rfl]
      rw [updateFirst_cons_neg i _ c _ hc]
      show c :: _ = c :: _
      rw [updateFirst_resolved_idem i rest]

theorem addReplyList_cons_pos (i : String) (r : Reply) (c : ReviewComment)
    (rest : List ReviewComment) (h : c.id = i) :
    Store.addReplyList i r (c :: rest) =
      some ({ c with replies := some ((c.replies.getD []) ++ [r]) } :: rest) := by
  unfold Store.addReplyList
  rw [if_pos h]

theorem addReplyList_cons_neg (i : String) (r : Reply) (c : ReviewComment)
    (rest : List ReviewComment) (h : ¬c.id = i) :
    Store.addReplyList i r (c :: rest) =
      (Store.addReplyList i r rest).map (c :: ·) := by
  conv_lhs => rw [Store.addReplyList]
  rw [if_neg h]

theorem addReplyList_none (i : String) (r : Reply) :
    ∀ cs, (∀ c ∈ cs, c.id ≠ i) → Store.addReplyList i r cs = none
  | [], _ => rfl
  | c :: rest, h => by
    rw [addReplyList_cons_neg i r c rest (h c (List.mem_cons_self c rest)),
      addReplyList_none i r rest fun d hd => h d (List.mem_cons_of_mem c hd)]
    rfl

theorem addReplyList_nodup (r : Reply) :
    ∀ (cs : List ReviewComment) (C : ReviewComment), C ∈ cs →
      (cs.map (·.id)).Nodup →
      ∃ k, ∃ hk : k < cs.length,
        cs.get ⟨k, hk⟩ = C ∧
        Store.addReplyList C.id r cs =
          some (cs.set k { C with replies := some ((C.replies.getD []) ++ [r]) })
  | [], C, hmem, _ => absurd hmem (List.not_mem_nil C)
  | c :: rest, C, hmem, hnd => by
    by_cases hc : c.id = C.id
    · have hCc : C = c := by
        rcases List.mem_cons.1 hmem with h1 | h1
        · exact h1
        · exfalso
          have h2 : c.id ∉ rest.map (·.id) := by
            have := hnd
            simp only [List.map_cons, List.nodup_cons] at this
            exact this.1
          exact h2 (hc ▸ List.mem_map.2 ⟨C, h1, rfl⟩)
      subst hCc
      exact ⟨0, by simp, rfl, by rw [addReplyList_cons_pos C.id r C rest rfl]; rfl⟩
    · have hC : C ∈ rest := by
        rcases List.mem_cons.1 hmem with h1 | h1
        · exact absurd (show c.id = C.id by rw [h1]) hc
        · exact h1
      have hnd' : (rest.map (·.id)).Nodup := by
        have := hnd
        simp only [List.map_cons, List.nodup_cons] at this
        exact this.2
      obtain ⟨k, hk, hget, heq⟩ := addReplyList_nodup r rest C hC hnd'
      refine ⟨k + 1, by simpa using hk, by simpa using hget, ?_⟩
      rw [addReplyList_cons_neg C.id r c rest hc, heq]
      rfl

theorem update_not_found (st : StoreState) (f i : String) (u : Updates)
    (h : ∀ c ∈ Store.load st f, c.id ≠ i) :
    Store.update st f i u = (none, st, false) := by
  simp only [Store.update]
  rw [updateFirst_not_found i u (Store.load st f) h]

theorem remove_not_found (st : StoreState) (f i : String)
    (h : ∀ c ∈ Store.load st f, c.id ≠ i) :
    Store.remove st f i = (false, st, false) := by
  simp only [Store.remove]
  have hf : (Store.load st f).filter (fun c => decide (c.id ≠ i)) = Store.load st f :=
    List.filter_eq_self.2 fun c hc => by simpa using h c hc
  rw [hf, if_pos rfl]

theorem addReply_not_found (st : StoreState) (f i a m now : String)
    (h : ∀ c ∈ Store.load st f, c.id ≠ i) :
    Store.addReply st f i a m now = (false, st, false) := by
  simp only [Store.addReply]
  rw [addReplyList_none i ⟨a, m, now⟩ (Store.load st f) h]

theorem update_found (st : StoreState) (f i : String) (u : Updates)
    (h : ∃ c ∈ Store.load st f, c.id = i) :
    Store.update st f i u =
      ((Store.updateFirst i u (Store.load st f)).1,
       Store.save st f ((Store.updateFirst i u (Store.load st f)).2), true) := by
  obtain ⟨c', hc'⟩ := updateFirst_fst_isSome i u _ h
  rcases huf : Store.updateFirst i u (Store.load st f) with ⟨o, cs2⟩
  rw [huf] at hc'
  simp only at hc'
  subst hc'
  simp only [Store.update]
  rw [huf]

theorem resolveComment_found (st : StoreState) (f i : String)
    (h : ∃ c ∈ Store.load st f, c.id = i) :
    Service.resolveComment true st f i =
      (true, Store.save st f
        ((Store.updateFirst i { resolved := some true } (Store.load st f)).2)) := by
  obtain ⟨c', hc'⟩ := updateFirst_fst_isSome i { resolved := some true } _ h
  rcases huf : Store.updateFirst i { resolved := some true } (Store.load st f)
    with ⟨o, cs2⟩
  rw [huf] at hc'
  simp only at hc'
  subst hc'
  simp only [Service.resolveComment, Bool.not_true, Bool.false_eq_true, if_false]
  rw [update_found st f i _ h, huf]

theorem create_load (st : StoreState) (f : String) (fields : CommentFields)
    (now : String) :
    Store.load (Store.create st f fields now).2 f =
      Store.load st f ++
        [mkComment fields (intToString (Store.maxIdOf (Store.load st f) + 1)) now] := by
  simp only [Store.create]
  exact load_save _ _ _

theorem createMany_ids :
    ∀ (inputs : List (CommentFields × String)) (st : StoreState) (f : String)
      (n : Nat),
      (Store.load st f).map (·.id) = (List.range n).map canonicalId →
      Store.maxIdOf (Store.load st f) = (n : Int) →
      (Store.load (createMany st f inputs) f).map (·.id) =
        (List.range (n + inputs.length)).map canonicalId
  | [], st, f, n, hids, _ => by simpa using hids
  | (fields, now) :: rest, st, f, n, hids, hmax => by
    have hpos : (1 : Int) ≤ Store.maxIdOf (Store.load st f) + 1 := by
      have := maxIdOf_nonneg (Store.load st f)
      omega
    have hids' : (Store.load (Store.create st f fields now).2 f).map (·.id) =
        (List.range (n + 1)).map canonicalId := by
      rw [create_load, List.map_append, hids, List.range_succ, List.map_append]
      congr 1
      simp only [mkComment, List.map_cons, List.map_nil]
      rw [hmax]
      rfl
    have hmax' : Store.maxIdOf (Store.load (Store.create st f fields now).2 f) =
        ((n + 1 : Nat) : Int) := by
      rw [create_load, maxIdOf_append]
      have hid : (mkComment fields
          (intToString (Store.maxIdOf (Store.load st f) + 1)) now).id =
          intToString (Store.maxIdOf (Store.load st f) + 1) := rfl
      rw [hid, parseIntOr0_intToString _ hpos, hmax]
      push_cast
      omega
    have hrec := createMany_ids rest (Store.create st f fields now).2 f (n + 1)
      hids' hmax'
    show (Store.load (createMany (Store.create st f fields now).2 f rest) f).map
      (·.id) = _
    rw [hrec, show n + 1 + rest.length = n + (rest.length + 1) by omega]
    rfl

theorem addReplyList_isSome_iff (i : String) (r : Reply) :
    ∀ cs, (Store.addReplyList i r cs).isSome = true ↔ ∃ c ∈ cs, c.id = i
  | [] => by simp [Store.addReplyList]
  | c :: rest => by
    by_cases hc : c.id = i
    · rw [addReplyList_cons_pos i r c rest hc]
      simp only [Option.isSome_some, true_iff]
      exact ⟨c, List.mem_cons_self c rest, hc⟩
    · rw [addReplyList_cons_neg i r c rest hc]
      rw [show (Option.map (fun x => c :: x) (Store.addReplyList i r rest)).isSome =
        (Store.addReplyList i r rest).isSome from by
          rcases Store.addReplyList i r rest with _ | cs' <;> rfl]
      rw [addReplyList_isSome_iff i r rest]
      constructor
      · rintro ⟨d, hd, hdi⟩
        exact ⟨d, List.mem_cons_of_mem c hd, hdi⟩
      · rintro ⟨d, hd, hdi⟩
        rcases List.mem_cons.1 hd with h1 | h1
        · exact absurd (h1 ▸ hdi) hc
        · exact ⟨d, h1, hdi⟩

theorem storeAddReply_success_iff (st : StoreState) (f i a m now : String) :
    (Store.addReply st f i a m now).1 = true ↔ ∃ c ∈ Store.load st f, c.id = i := by
  rw [← addReplyList_isSome_iff i ⟨a, m, now⟩ (Store.load st f)]
  rcases h : Store.addReplyList i ⟨a, m, now⟩ (Store.load st f) with _ | cs' <;>
    simp [Store.addReply, h]

theorem serviceAddReply_success_iff (st : StoreState) (f i : String)
    (author : Author) (m now : String) :
    (Service.addReply true st f i author m now).1 = true ↔
      ∃ c ∈ Store.load st f, c.id = i := by
  simp only [Service.addReply, Bool.not_true, Bool.false_eq_true, if_false]
  exact storeAddReply_success_iff st f i _ m now

theorem applyUpdates_outdated_none (u : Updates) (c : ReviewComment)
    (h : u.outdated = none) : (applyUpdates u c).outdated = c.outdated := by
  simp [applyUpdates, h]

theorem applyUpdates_outdated_some (u : Updates) (c : ReviewComment) (b : Bool)
    (h : u.outdated = some b) : (applyUpdates u c).outdated = some b := by
  simp [applyUpdates, h]

theorem addReplyList_proj (i : String) (r : Reply) :
    ∀ cs cs', Store.addReplyList i r cs = some cs' →
      (∀ c' ∈ cs', ∃ c ∈ cs, c'.id = c.id ∧ c'.outdated = c.outdated) ∧
      cs'.map (·.id) = cs.map (·.id)
  | [], cs', h => Option.noConfusion h
  | c :: rest, cs', h => by
    by_cases hc : c.id = i
    · rw [addReplyList_cons_pos i r c rest hc] at h
      cases h
      constructor
      · intro c' hc'
        rcases List.mem_cons.1 hc' with h1 | h1
        · exact ⟨c, List.mem_cons_self c rest, by rw [h1], by rw [h1]⟩
        · exact ⟨c', List.mem_cons_of_mem c h1, rfl, rfl⟩
      · simp
    · rw [addReplyList_cons_neg i r c rest hc] at h
      rcases hrec : Store.addReplyList i r rest with _ | cs''
      · rw [hrec] at h
        cases h
      · rw [hrec] at h
        rw [show Option.map (fun x => c :: x) (some cs'') = some (c :: cs'')
          from rfl] at h
        cases h
        obtain ⟨hmem, hids⟩ := addReplyList_proj i r rest cs'' hrec
        constructor
        · intro c' hc'
          rcases List.mem_cons.1 hc' with h1 | h1
          · exact ⟨c, List.mem_cons_self c rest, by rw [h1], by rw [h1]⟩
          · obtain ⟨d, hd, h2, h3⟩ := hmem c' h1
            exact ⟨d, List.mem_cons_of_mem c hd, h2, h3⟩
        · simp [hids]

theorem remove_snd_char (st : StoreState) (file j : String) :
    (Store.remove st file j).2.1 = st ∨
    (Store.remove st file j).2.1 =
      Store.save st file ((Store.load st file).filter (fun c => decide (c.id ≠ j))) := by
  simp only [Store.remove]
  split
  · exact Or.inl rfl
  · exact Or.inr rfl

theorem update_snd_char (st : StoreState) (file j : String) (u : Updates) :
    (Store.update st file j u).2.1 = st ∨
    (Store.update st file j u).2.1 =
      Store.save st file ((Store.updateFirst j u (Store.load st file)).2) := by
  simp only [Store.update]
  rcases huf : Store.updateFirst j u (Store.load st file) with ⟨o, cs2⟩
  cases o
  · exact Or.inl rfl
  · exact Or.inr rfl

theorem addReply_snd_char (st : StoreState) (file j a m now : String) :
    (Store.addReply st file j a m now).2.1 = st ∨
    ∃ cs', Store.addReplyList j ⟨a, m, now⟩ (Store.load st file) = some cs' ∧
      (Store.addReply st file j a m now).2.1 = Store.save st file cs' := by
  simp only [Store.addReply]
  rcases h : Store.addReplyList j ⟨a, m, now⟩ (Store.load st file) with _ | cs'
  · exact Or.inl rfl
  · exact Or.inr ⟨cs', rfl, rfl⟩

theorem applyServiceOp_false (ws : Option String) (st : StoreState)
    (op : ServiceOp) : applyServiceOp false ws st op = st := by
  cases op <;> rfl

theorem removeComment_snd (st : StoreState) (file j : String) :
    (Service.removeComment true st file j).2 = (Store.remove st file j).2.1 := by
  simp only [Service.removeComment, Bool.not_true, Bool.false_eq_true, if_false]

theorem resolveComment_snd (st : StoreState) (file j : String) :
    (Service.resolveComment true st file j).2 =
      (Store.update st file j { resolved := some true }).2.1 := by
  simp only [Service.resolveComment, Bool.not_true, Bool.false_eq_true, if_false]
  rcases h : Store.update st file j { resolved := some true } with ⟨o, st', w⟩
  cases o <;> rfl

theorem serviceAddReply_snd (st : StoreState) (file j : String) (author : Author)
    (m now : String) :
    (Service.addReply true st file j author m now).2 =
      (Store.addReply st file j
        (match author with
          | Author.claude => "claude"
          | Author.user => "user") m now).2.1 := by
  simp only [Service.addReply, Bool.not_true, Bool.false_eq_true, if_false]

theorem addComment_snd (ws : Option String) (fs : FileSystem) (st : StoreState)
    (file : String) (line : Int) (msg : String) (opts : Service.AddOptions)
    (now : String) :
    ∃ fields, (Service.addComment true ws fs st file line msg opts now).2 =
      (Store.create st file fields now).2 :=
  ⟨_, rfl⟩

theorem checkOutdated_eq (ws : Option String) (fsS : FileSystem)
    (st : StoreState) (file : String) :
    Service.checkOutdatedForFile true ws fsS st file =
      (Store.load st file).foldl
        (fun acc c =>
          if Store.isOutdated ws fsS c && !truthyFlag c.outdated then
            (Store.update acc file c.id { outdated := some true }).2.1
          else acc) st := by
  simp only [Service.checkOutdatedForFile, Bool.not_true, Bool.false_eq_true,
    if_false]

theorem update_preserves_inv (st : StoreState) (file j f i : String)
    (u : Updates) (hu : u.outdated = none ∨ u.outdated = some true)
    (hex : ∃ c ∈ Store.load st f, c.id = i)
    (hout : ∀ c ∈ Store.load st f, c.id = i → c.outdated = some true) :
    (∃ c ∈ Store.load (Store.update st file j u).2.1 f, c.id = i) ∧
    (∀ c ∈ Store.load (Store.update st file j u).2.1 f, c.id = i →
      c.outdated = some true) := by
  rcases update_snd_char st file j u with h | h
  · rw [h]
    exact ⟨hex, hout⟩
  · rw [h]
    by_cases hf : f = file
    · subst hf
      rw [load_save]
      constructor
      · obtain ⟨c, hc, hci⟩ := hex
        have hmm : i ∈ ((Store.updateFirst j u (Store.load st f)).2).map (·.id) := by
          rw [updateFirst_ids j u (Store.load st f)]
          exact List.mem_map.2 ⟨c, hc, hci⟩
        obtain ⟨c', hc', hci'⟩ := List.mem_map.1 hmm
        exact ⟨c', hc', hci'⟩
      · intro c' hc' hci'
        rcases updateFirst_mem j u (Store.load st f) c' hc' with hm | ⟨c0, hc0, hc0j, he⟩
        · exact hout c' hm hci'
        · rcases hu with hun | hus
          · have h1 : c'.outdated = c0.outdated := by
              rw [he]
              exact applyUpdates_outdated_none u c0 hun
            rw [h1]
            apply hout c0 hc0
            have h2 : c'.id = c0.id := by
              rw [he]
              exact applyUpdates_id u c0
            rw [← h2]
            exact hci'
          · rw [he]
            exact applyUpdates_outdated_some u c0 true hus
    · rw [load_save_ne st file f _ hf]
      exact ⟨hex, hout⟩

theorem foldl_outdated_preserves_inv (ws : Option String) (fsS : FileSystem)
    (file f i : String) :
    ∀ (items : List ReviewComment) (st : StoreState),
      (∃ c ∈ Store.load st f, c.id = i) →
      (∀ c ∈ Store.load st f, c.id = i → c.outdated = some true) →
      (∃ c ∈ Store.load (items.foldl
        (fun acc c =>
          if Store.isOutdated ws fsS c && !truthyFlag c.outdated then
            (Store.update acc file c.id { outdated := some true }).2.1
          else acc) st) f, c.id = i) ∧
      (∀ c ∈ Store.load (items.foldl
        (fun acc c =>
          if Store.isOutdated ws fsS c && !truthyFlag c.outdated then
            (Store.update acc file c.id { outdated := some true }).2.1
          else acc) st) f, c.id = i → c.outdated = some true)
  | [], st, hex, hout => ⟨hex, hout⟩
  | d :: items, st, hex, hout => by
    rw [List.foldl_cons]
    by_cases hd : Store.isOutdated ws fsS d && !truthyFlag d.outdated
    · rw [if_pos hd]
      have := update_preserves_inv st file d.id f i { outdated := some true }
        (Or.inr rfl) hex hout
      exact foldl_outdated_preserves_inv ws fsS file f i items _ this.1 this.2
    · rw [if_neg hd]
      exact foldl_outdated_preserves_inv ws fsS file f i items st hex hout

theorem applyServiceOp_preserves_inv (ui : Bool) (ws : Option String)
    (f i : String) (op : ServiceOp) (st : StoreState)
    (hop : isRemoveOf f i op = false)
    (hex : ∃ c ∈ Store.load st f, c.id = i)
    (hout : ∀ c ∈ Store.load st f, c.id = i → c.outdated = some true) :
    (∃ c ∈ Store.load (applyServiceOp ui ws st op) f, c.id = i) ∧
    (∀ c ∈ Store.load (applyServiceOp ui ws st op) f, c.id = i →
      c.outdated = some true) := by
  cases ui
  · rw [applyServiceOp_false]
    exact ⟨hex, hout⟩
  cases op with
  | addC file line msg opts fsS now =>
    change (∃ c ∈ Store.load (Service.addComment true ws fsS st file line msg opts now).2 f, c.id = i) ∧
      (∀ c ∈ Store.load (Service.addComment true ws fsS st file line msg opts now).2 f, c.id = i → c.outdated = some true)
    obtain ⟨fields, hfe⟩ := addComment_snd ws fsS st file line msg opts now
    rw [hfe]
    by_cases hf : f = file
    · subst hf
      have hload := create_load st f fields now
      constructor
      · obtain ⟨c, hc, hci⟩ := hex
        exact ⟨c, by rw [hload]; exact List.mem_append_left _ hc, hci⟩
      · intro c' hc' hci'
        rw [hload] at hc'
        rcases List.mem_append.1 hc' with hm | hm
        · exact hout c' hm hci'
        · rw [List.mem_singleton] at hm
          exfalso
          apply fresh_id_not_mem (Store.load st f)
          rw [show intToString (Store.maxIdOf (Store.load st f) + 1) =
            c'.id from by rw [hm]; rfl, hci']
          obtain ⟨c, hc, hci⟩ := hex
          exact List.mem_map.2 ⟨c, hc, hci⟩
    · have hne : Store.load (Store.create st file fields now).2 f = Store.load st f := by
        simp only [Store.create]
        exact load_save_ne st file f _ hf
      rw [hne]
      exact ⟨hex, hout⟩
  | rmC file j =>
    change (∃ c ∈ Store.load (Service.removeComment true st file j).2 f, c.id = i) ∧
      (∀ c ∈ Store.load (Service.removeComment true st file j).2 f, c.id = i → c.outdated = some true)
    rw [removeComment_snd]
    rcases remove_snd_char st file j with h | h
    · rw [h]
      exact ⟨hex, hout⟩
    · rw [h]
      by_cases hf : f = file
      · subst hf
        have hji : j ≠ i := by
          simpa [isRemoveOf] using hop
        rw [load_save]
        constructor
        · obtain ⟨c, hc, hci⟩ := hex
          refine ⟨c, List.mem_filter.2 ⟨hc, ?_⟩, hci⟩
          simp only [decide_eq_true_iff]
          rw [hci]
          exact fun hh => hji hh.symm
        · intro c' hc' hci'
          exact hout c' (List.mem_of_mem_filter hc') hci'
      · rw [load_save_ne st file f _ hf]
        exact ⟨hex, hout⟩
  | resC file j =>
    change (∃ c ∈ Store.load (Service.resolveComment true st file j).2 f, c.id = i) ∧
      (∀ c ∈ Store.load (Service.resolveComment true st file j).2 f, c.id = i → c.outdated = some true)
    rw [resolveComment_snd]
    exact update_preserves_inv st file j f i { resolved := some true }
      (Or.inl rfl) hex hout
  | repC file j author msg now =>
    change (∃ c ∈ Store.load (Service.addReply true st file j author msg now).2 f, c.id = i) ∧
      (∀ c ∈ Store.load (Service.addReply true st file j author msg now).2 f, c.id = i → c.outdated = some true)
    rw [serviceAddReply_snd]
    rcases addReply_snd_char st file j _ msg now with h | ⟨cs', hsome, h⟩
    · rw [h]
      exact ⟨hex, hout⟩
    · rw [h]
      by_cases hf : f = file
      · subst hf
        rw [load_save]
        obtain ⟨hmem, hids⟩ := addReplyList_proj j _ (Store.load st f) cs' hsome
        constructor
        · obtain ⟨c, hc, hci⟩ := hex
          have : i ∈ cs'.map (·.id) := by
            rw [hids]
            exact List.mem_map.2 ⟨c, hc, hci⟩
          obtain ⟨c', hc', hci'⟩ := List.mem_map.1 this
          exact ⟨c', hc', hci'⟩
        · intro c' hc' hci'
          obtain ⟨c0, hc0, hce, hco⟩ := hmem c' hc'
          rw [hco]
          exact hout c0 hc0 (by rw [← hce]; exact hci')
      · rw [load_save_ne st file f _ hf]
        exact ⟨hex, hout⟩
  | chkC file fsS =>
    change (∃ c ∈ Store.load (Service.checkOutdatedForFile true ws fsS st file) f, c.id = i) ∧
      (∀ c ∈ Store.load (Service.checkOutdatedForFile true ws fsS st file) f, c.id = i → c.outdated = some true)
    rw [checkOutdated_eq]
    exact foldl_outdated_preserves_inv ws fsS file f i (Store.load st file) st
      hex hout

theorem runServiceOps_preserves_inv (ui : Bool) (ws : Option String)
    (f i : String) :
    ∀ (ops : List ServiceOp) (st : StoreState),
      (∀ op ∈ ops, isRemoveOf f i op = false) →
      (∃ c ∈ Store.load st f, c.id = i) →
      (∀ c ∈ Store.load st f, c.id = i → c.outdated = some true) →
      (∃ c ∈ Store.load (runServiceOps ui ws st ops) f, c.id = i) ∧
      (∀ c ∈ Store.load (runServiceOps ui ws st ops) f, c.id = i →
        c.outdated = some true)
  | [], st, _, hex, hout => ⟨hex, hout⟩
  | op :: ops, st, hno, hex, hout => by
    have hstep := applyServiceOp_preserves_inv ui ws f i op st
      (hno op (List.mem_cons_self op ops)) hex hout
    exact runServiceOps_preserves_inv ui ws f i ops (applyServiceOp ui ws st op)
      (fun o ho => hno o (List.mem_cons_of_mem op ho)) hstep.1 hstep.2

theorem hexVal_hexDigitU : ∀ k, k < 16 → hexVal (hexDigitU k) = some k := by
  decide

theorem hexDuo_pct (b : Nat) (h : b < 256) :
    hexDuo (hexDigitU (b / 16)) (hexDigitU (b % 16)) = some b := by
  have h1 := hexVal_hexDigitU (b / 16) (by omega)
  have h2 := hexVal_hexDigitU (b % 16) (by omega)
  simp [hexDuo, h1, h2]
  omega

theorem char_valid_bounds (c : Char) :
    c.toNat < 0x110000 ∧ ¬(0xD800 ≤ c.toNat ∧ c.toNat ≤ 0xDFFF) := by
  have he : c.toNat = c.val.toNat := rfl
  rcases c.valid with h | h
  · exact ⟨by omega, by omega⟩
  · exact ⟨by omega, by omega⟩

theorem mkScalar_valid (c : Char) : mkScalar c.toNat = some c := by
  unfold mkScalar
  rw [dif_pos (by rcases c.valid with h | h
                  · exact Or.inl h
                  · exact Or.inr h)]
  rw [Char.ofNat_toNat]

theorem contByte_pct (x : Nat) (hx : x < 64) (r : List Char) :
    contByte (pctByte (0x80 + x) ++ r) = some (x, r) := by
  show contByte ('%' :: hexDigitU ((0x80 + x) / 16) ::
    hexDigitU ((0x80 + x) % 16) :: r) = some (x, r)
  show (hexDuo (hexDigitU ((0x80 + x) / 16)) (hexDigitU ((0x80 + x) % 16))).bind
    (fun b2 => if 0x80 ≤ b2 ∧ b2 < 0xC0 then some (b2 - 0x80, r) else none) =
      some (x, r)
  rw [hexDuo_pct (0x80 + x) (by omega)]
  rw [Option.some_bind]
  rw [if_pos (show 0x80 ≤ 0x80 + x ∧ 0x80 + x < 0xC0 by omega)]
  rw [Nat.add_sub_cancel_left]

theorem decodeSeq_ascii (c : Char) (h : c.toNat < 0x80) (r1 : List Char) :
    decodeSeq c.toNat r1 = some (c, r1) := by
  unfold decodeSeq
  rw [if_pos h, mkScalar_valid]
  rfl

theorem decodeSeq_two (c : Char) (h1 : 0x80 ≤ c.toNat) (h2 : c.toNat < 0x800)
    (r : List Char) :
    decodeSeq (0xC0 + c.toNat / 64) (pctByte (0x80 + c.toNat % 64) ++ r) =
      some (c, r) := by
  unfold decodeSeq
  rw [if_neg (by omega), if_neg (by omega), if_pos (by omega)]
  rw [contByte_pct (c.toNat % 64) (by omega) r, Option.some_bind]
  show (mkScalar ((0xC0 + c.toNat / 64 - 0xC0) * 64 + c.toNat % 64)).map
    (fun ch => (ch, r)) = some (c, r)
  rw [show (0xC0 + c.toNat / 64 - 0xC0) * 64 + c.toNat % 64 = c.toNat by omega]
  rw [mkScalar_valid]
  rfl

theorem decodeSeq_three (c : Char) (h1 : 0x800 ≤ c.toNat)
    (h2 : c.toNat < 0x10000) (r : List Char) :
    decodeSeq (0xE0 + c.toNat / 4096)
      (pctByte (0x80 + c.toNat / 64 % 64) ++ (pctByte (0x80 + c.toNat % 64) ++ r)) =
      some (c, r) := by
  have hv := char_valid_bounds c
  unfold decodeSeq
  rw [if_neg (by omega), if_neg (by omega), if_neg (by omega), if_pos (by omega)]
  rw [contByte_pct (c.toNat / 64 % 64) (by omega), Option.some_bind]
  show (contByte (pctByte (0x80 + c.toNat % 64) ++ r)).bind _ = some (c, r)
  rw [contByte_pct (c.toNat % 64) (by omega) r, Option.some_bind]
  show (if (0xE0 + c.toNat / 4096 - 0xE0) * 4096 + c.toNat / 64 % 64 * 64 +
      c.toNat % 64 < 0x800 then none
    else (mkScalar ((0xE0 + c.toNat / 4096 - 0xE0) * 4096 +
      c.toNat / 64 % 64 * 64 + c.toNat % 64)).map (fun ch => (ch, r))) =
      some (c, r)
  rw [show (0xE0 + c.toNat / 4096 - 0xE0) * 4096 + c.toNat / 64 % 64 * 64 +
    c.toNat % 64 = c.toNat by omega]
  rw [if_neg (by omega), mkScalar_valid]
  rfl

theorem decodeSeq_four (c : Char) (h1 : 0x10000 ≤ c.toNat) (r : List Char) :
    decodeSeq (0xF0 + c.toNat / 262144)
      (pctByte (0x80 + c.toNat / 4096 % 64) ++
        (pctByte (0x80 + c.toNat / 64 % 64) ++
          (pctByte (0x80 + c.toNat % 64) ++ r))) = some (c, r) := by
  have hv := char_valid_bounds c
  unfold decodeSeq
  rw [if_neg (by omega), if_neg (by omega), if_neg (by omega), if_neg (by omega),
    if_pos (by omega)]
  rw [contByte_pct (c.toNat / 4096 % 64) (by omega), Option.some_bind]
  show (contByte (pctByte (0x80 + c.toNat / 64 % 64) ++
    (pctByte (0x80 + c.toNat % 64) ++ r))).bind _ = some (c, r)
  rw [contByte_pct (c.toNat / 64 % 64) (by omega), Option.some_bind]
  show (contByte (pctByte (0x80 + c.toNat % 64) ++ r)).bind _ = some (c, r)
  rw [contByte_pct (c.toNat % 64) (by omega) r, Option.some_bind]
  show (if (0xF0 + c.toNat / 262144 - 0xF0) * 262144 +
      c.toNat / 4096 % 64 * 4096 + c.toNat / 64 % 64 * 64 + c.toNat % 64 <
        0x10000 then none
    else (mkScalar ((0xF0 + c.toNat / 262144 - 0xF0) * 262144 +
      c.toNat / 4096 % 64 * 4096 + c.toNat / 64 % 64 * 64 + c.toNat % 64)).map
        (fun ch => (ch, r))) = some (c, r)
  rw [show (0xF0 + c.toNat / 262144 - 0xF0) * 262144 +
    c.toNat / 4096 % 64 * 4096 + c.toNat / 64 % 64 * 64 + c.toNat % 64 =
      c.toNat by omega]
  rw [if_neg (by omega), mkScalar_valid]
  rfl

theorem decodeF_cons_ne (fuel : Nat) (c : Char) (rest : List Char)
    (h : ¬c = '%') :
    decodeURICharsF (fuel + 1) (c :: rest) =
      (decodeURICharsF fuel rest).map (c :: ·) := by
  conv_lhs => rw [decodeURICharsF]
  rw [if_neg h]

theorem hexPair_cons (h1 h2 : Char) (r : List Char) :
    hexPair (h1 :: h2 :: r) = (hexDuo h1 h2).map (fun b => (b, r)) := rfl

theorem decodeF_cons_pct (fuel : Nat) (h1 h2 : Char) (r1 : List Char) (b : Nat)
    (hb : hexDuo h1 h2 = some b) :
    decodeURICharsF (fuel + 1) ('%' :: h1 :: h2 :: r1) =
      (decodeSeq b r1).bind fun p =>
        (decodeURICharsF fuel p.2).map (p.1 :: ·) := by
  conv_lhs => rw [decodeURICharsF]
  rw [if_pos rfl, hexPair_cons, hb]
  rfl

theorem uriUnreserved_ne_pct (c : Char) (hu : isUriUnreserved c = true) :
    ¬c = '%' := by
  intro h
  subst h
  simp [isUriUnreserved] at hu

theorem decode_step (c : Char) (tail : List Char) (fuel : Nat) :
    decodeURICharsF (fuel + 1) (encodeOne c ++ tail) =
      (decodeURICharsF fuel tail).map (c :: ·) := by
  by_cases hu : isUriUnreserved c
  · rw [show encodeOne c ++ tail = c :: tail from by
      unfold encodeOne
      rw [if_pos hu]
      rfl]
    exact decodeF_cons_ne fuel c tail (uriUnreserved_ne_pct c hu)
  · have hv := char_valid_bounds c
    have hneg : isUriUnreserved c = false := by
      simp at hu
      exact hu
    rcases Nat.lt_or_ge c.toNat 0x80 with hr | hr
    · rw [show encodeOne c ++ tail =
        '%' :: hexDigitU (c.toNat / 16) :: hexDigitU (c.toNat % 16) :: tail from by
          unfold encodeOne
          rw [if_neg (by simp [hneg]), show utf8Bytes c.toNat = [c.toNat] from by
            unfold utf8Bytes
            rw [if_pos hr]]
          rfl]
      rw [decodeF_cons_pct fuel _ _ tail c.toNat (hexDuo_pct c.toNat (by omega)),
        decodeSeq_ascii c hr tail, Option.some_bind]
    · rcases Nat.lt_or_ge c.toNat 0x800 with hr2 | hr2
      · rw [show encodeOne c ++ tail =
          '%' :: hexDigitU ((0xC0 + c.toNat / 64) / 16) ::
            hexDigitU ((0xC0 + c.toNat / 64) % 16) ::
              (pctByte (0x80 + c.toNat % 64) ++ tail) from by
            unfold encodeOne
            rw [if_neg (by simp [hneg]), show utf8Bytes c.toNat =
              [0xC0 + c.toNat / 64, 0x80 + c.toNat % 64] from by
                unfold utf8Bytes
                rw [if_neg (by omega), if_pos hr2]]
            simp [pctByte]]
        rw [decodeF_cons_pct fuel _ _ _ (0xC0 + c.toNat / 64)
          (hexDuo_pct (0xC0 + c.toNat / 64) (by omega)),
          decodeSeq_two c hr hr2 tail, Option.some_bind]
      · rcases Nat.lt_or_ge c.toNat 0x10000 with hr3 | hr3
        · rw [show encodeOne c ++ tail =
            '%' :: hexDigitU ((0xE0 + c.toNat / 4096) / 16) ::
              hexDigitU ((0xE0 + c.toNat / 4096) % 16) ::
                (pctByte (0x80 + c.toNat / 64 % 64) ++
                  (pctByte (0x80 + c.toNat % 64) ++ tail)) from by
              unfold encodeOne
              rw [if_neg (by simp [hneg]), show utf8Bytes c.toNat =
                [0xE0 + c.toNat / 4096, 0x80 + c.toNat / 64 % 64,
                 0x80 + c.toNat % 64] from by
                  unfold utf8Bytes
                  rw [if_neg (by omega), if_neg (by omega), if_pos hr3]]
              simp [pctByte]]
          rw [decodeF_cons_pct fuel _ _ _ (0xE0 + c.toNat / 4096)
            (hexDuo_pct (0xE0 + c.toNat / 4096) (by omega)),
            decodeSeq_three c hr2 hr3 tail, Option.some_bind]
        · rw [show encodeOne c ++ tail =
            '%' :: hexDigitU ((0xF0 + c.toNat / 262144) / 16) ::
              hexDigitU ((0xF0 + c.toNat / 262144) % 16) ::
                (pctByte (0x80 + c.toNat / 4096 % 64) ++
                  (pctByte (0x80 + c.toNat / 64 % 64) ++
                    (pctByte (0x80 + c.toNat % 64) ++ tail))) from by
              unfold encodeOne
              rw [if_neg (by simp [hneg]), show utf8Bytes c.toNat =
                [0xF0 + c.toNat / 262144, 0x80 + c.toNat / 4096 % 64,
                 0x80 + c.toNat / 64 % 64, 0x80 + c.toNat % 64] from by
                  unfold utf8Bytes
                  rw [if_neg (by omega), if_neg (by omega), if_neg (by omega)]]
              simp [pctByte]]
          rw [decodeF_cons_pct fuel _ _ _ (0xF0 + c.toNat / 262144)
            (hexDuo_pct (0xF0 + c.toNat / 262144) (by omega)),
            decodeSeq_four c hr3 tail, Option.some_bind]

theorem encodeURIChars_cons (c : Char) (l : List Char) :
    encodeURIChars (c :: l) = encodeOne c ++ encodeURIChars l := by
  simp [encodeURIChars]

theorem encodeOne_length_pos (c : Char) : 1 ≤ (encodeOne c).length := by
  unfold encodeOne
  split
  · simp
  · unfold utf8Bytes
    split
    · simp [pctByte]
    · split
      · simp [pctByte]
      · split
        · simp [pctByte]
        · simp [pctByte]

theorem length_le_encode : ∀ l : List Char, l.length ≤ (encodeURIChars l).length
  | [] => le_refl 0
  | c :: l => by
    rw [encodeURIChars_cons, List.length_append, List.length_cons]
    have h1 := encodeOne_length_pos c
    have h2 := length_le_encode l
    omega

theorem decodeF_encode_k :
    ∀ (l : List Char) (k : Nat),
      decodeURICharsF (k + l.length + 1) (encodeURIChars l) = some l
  | [], k => rfl
  | c :: l, k => by
    rw [encodeURIChars_cons]
    rw [show k + (c :: l).length + 1 = (k + l.length + 1) + 1 from by
      simp
      omega]
    rw [decode_step c _ (k + l.length + 1)]
    rw [decodeF_encode_k l k]
    rfl

theorem decode_encode (l : List Char) :
    decodeURIChars (encodeURIChars l) = some l := by
  unfold decodeURIChars
  have hlen := length_le_encode l
  rw [show (encodeURIChars l).length + 1 =
    ((encodeURIChars l).length - l.length) + l.length + 1 from by omega]
  exact decodeF_encode_k l _

theorem hexDigitU_toNat (k : Nat) (h : k < 16) :
    (hexDigitU k).toNat = if k < 10 then 48 + k else 55 + k := by
  unfold hexDigitU
  by_cases hk : k < 10
  · rw [if_pos hk, if_pos hk]
    exact toNat_ofNat_lt _ (by omega)
  · rw [if_neg hk, if_neg hk]
    exact toNat_ofNat_lt _ (by omega)

theorem utf8Bytes_lt (n : Nat) (h : n < 0x110000) :
    ∀ b ∈ utf8Bytes n, b < 256 := by
  unfold utf8Bytes
  split
  · intro b hb
    rw [List.mem_singleton] at hb
    omega
  · split
    · intro b hb
      simp only [List.mem_cons, List.mem_singleton, List.not_mem_nil,
        or_false] at hb
      rcases hb with h1 | h1 <;> omega
    · split
      · intro b hb
        simp only [List.mem_cons, List.mem_singleton, List.not_mem_nil,
          or_false] at hb
        rcases hb with h1 | h1 | h1 <;> omega
      · intro b hb
        simp only [List.mem_cons, List.mem_singleton, List.not_mem_nil,
          or_false] at hb
        rcases hb with h1 | h1 | h1 | h1 <;> omega

theorem mem_encodeOne_ne_slash (c : Char) : ∀ x ∈ encodeOne c, ¬x = '/' := by
  intro x hx hslash
  subst hslash
  unfold encodeOne at hx
  by_cases hu : isUriUnreserved c
  · rw [if_pos hu, List.mem_singleton] at hx
    rw [← hx] at hu
    exact absurd hu (by decide)
  · rw [if_neg hu] at hx
    obtain ⟨b, hb, hxb⟩ := List.mem_flatMap.1 hx
    have hb256 : b < 256 := utf8Bytes_lt c.toNat (char_valid_bounds c).1 b hb
    unfold pctByte at hxb
    simp only [List.mem_cons, List.mem_singleton, List.not_mem_nil,
      or_false] at hxb
    rcases hxb with h1 | h1 | h1
    · exact absurd h1 (by decide)
    · have ht : ('/' : Char).toNat = (hexDigitU (b / 16)).toNat := by rw [h1]
      rw [hexDigitU_toNat _ (by omega)] at ht
      split at ht <;> simp at ht <;> omega
    · have ht : ('/' : Char).toNat = (hexDigitU (b % 16)).toNat := by rw [h1]
      rw [hexDigitU_toNat _ (by omega)] at ht
      split at ht <;> simp at ht <;> omega

theorem mem_encodeChars_ne_slash :
    ∀ l, ∀ x ∈ encodeURIChars l, ¬x = '/'
  | [], x, hx => absurd hx (List.not_mem_nil x)
  | c :: l, x, hx => by
    rw [encodeURIChars_cons] at hx
    rcases List.mem_append.1 hx with h1 | h1
    · exact mem_encodeOne_ne_slash c x h1
    · exact mem_encodeChars_ne_slash l x h1

theorem lastComponent_append (a b : List Char) (hb : ∀ x ∈ b, ¬x = '/') :
    lastComponent (a ++ '/' :: b) = b := by
  unfold lastComponent
  rw [List.reverse_append, show ('/' :: b).reverse = b.reverse ++ ['/'] from by
    simp]
  rw [List.append_assoc, List.singleton_append]
  rw [(takeWhile_append_of (fun c => decide (c ≠ '/')) b.reverse
    ('/' :: a.reverse)
    (fun c hc => by
      simp only [decide_eq_true_iff]
      exact hb c (List.mem_reverse.1 hc))
    (fun c hc => by
      cases hc
      simp)).1]
  exact List.reverse_reverse b

theorem dropSuffix_append (pre suf : List Char) :
    dropSuffix (pre ++ suf) suf = some pre := by
  have hidx : (pre ++ suf).length - suf.length = pre.length := by simp
  unfold dropSuffix
  rw [hidx]
  rw [if_pos ⟨by simp, List.drop_left pre suf⟩]
  rw [List.take_left]

theorem data_ne_nil_of_ne_empty (p : String) (hp : p ≠ "") : p.data ≠ [] := by
  intro hd
  apply hp
  cases p
  cases hd
  rfl

/-! ## Claims -/

/-- C6: on an id absent from the file's persisted collection, `update`
returns `undefined`, `remove` returns `false`, `addReply` returns `false`,
and in each case the persisted store is left unchanged with no save call. -/
theorem c6_not_found_atomic (st : StoreState) (f i : String) (u : Updates)
    (a m now : String) (h : ∀ c ∈ Store.load st f, c.id ≠ i) :
    Store.update st f i u = (none, st, false) ∧
    Store.remove st f i = (false, st, false) ∧
    Store.addReply st f i a m now = (false, st, false) :=
  ⟨update_not_found st f i u h, remove_not_found st f i h,
   addReply_not_found st f i a m now h⟩

/-- Witness for C6 at a concrete store and absent id. -/
theorem c6_not_found_atomic_witness :
    Store.update sampleStore "a.ts" "9" { resolved := some true } =
      (none, sampleStore, false) ∧
    Store.remove sampleStore "a.ts" "9" = (false, sampleStore, false) ∧
    Store.addReply sampleStore "a.ts" "9" "user" "m" "t1" =
      (false, sampleStore, false) :=
  c6_not_found_atomic sampleStore "a.ts" "9" { resolved := some true }
    "user" "m" "t1" (by decide)

/-- C7: resolving an existing comment twice succeeds both times, the
comment's `resolved` flag is `true` after the first call, and the second
call leaves the persisted store exactly as the first left it. -/
theorem c7_resolve_idempotent (st : StoreState) (f i : String)
    (h : ∃ c ∈ Store.load st f, c.id = i) :
    (Service.resolveComment true st f i).1 = true ∧
    (Service.resolveComment true (Service.resolveComment true st f i).2 f i).1 = true ∧
    (∃ c ∈ Store.load (Service.resolveComment true st f i).2 f,
      c.id = i ∧ c.resolved = some true) ∧
    (Service.resolveComment true (Service.resolveComment true st f i).2 f i).2 =
      (Service.resolveComment true st f i).2 := by
  have h1 := resolveComment_found st f i h
  set cs1 := (Store.updateFirst i { resolved := some true } (Store.load st f)).2
    with hcs1
  have hload1 : Store.load (Service.resolveComment true st f i).2 f = cs1 := by
    rw [h1]
    exact load_save st f cs1
  have hmem1 : ∃ c ∈ cs1, c.id = i ∧ c.resolved = some true := by
    obtain ⟨c', hc', hi, hr⟩ := updateFirst_resolved_mem i (Store.load st f) h
    exact ⟨c', hc', hi, hr⟩
  have hex1 : ∃ c ∈ Store.load (Service.resolveComment true st f i).2 f, c.id = i := by
    rw [hload1]
    obtain ⟨c', hc', hi, _⟩ := hmem1
    exact ⟨c', hc', hi⟩
  have h2 := resolveComment_found (Service.resolveComment true st f i).2 f i hex1
  refine ⟨by rw [h1], by rw [h2], by rw [hload1]; exact hmem1, ?_⟩
  rw [h2, h1]
  show Store.save (Store.save st f cs1) f
    ((Store.updateFirst i { resolved := some true }
      (Store.load (Store.save st f cs1) f)).2) = Store.save st f cs1
  rw [show Store.load (Store.save st f cs1) f = cs1 from load_save st f cs1]
  rw [show (Store.updateFirst i { resolved := some true } cs1).2 = cs1 from by
    rw [hcs1]; exact updateFirst_resolved_idem i (Store.load st f)]
  exact save_save st f cs1 cs1

/-- Witness for C7 at a concrete store and present id. -/
theorem c7_resolve_idempotent_witness :
    (Service.resolveComment true sampleStore "a.ts" "1").1 = true ∧
    (Service.resolveComment true
      (Service.resolveComment true sampleStore "a.ts" "1").2 "a.ts" "1").1 = true ∧
    (∃ c ∈ Store.load (Service.resolveComment true sampleStore "a.ts" "1").2 "a.ts",
      c.id = "1" ∧ c.resolved = some true) ∧
    (Service.resolveComment true
      (Service.resolveComment true sampleStore "a.ts" "1").2 "a.ts" "1").2 =
      (Service.resolveComment true sampleStore "a.ts" "1").2 :=
  c7_resolve_idempotent sampleStore "a.ts" "1" (by decide)

/-- C1: appending a reply to an existing comment succeeds and the new
store differs from the old only at that comment, which keeps every field
except `replies` and gains exactly the one entry
`(author, message, now)` at the end of its (possibly freshly created)
reply list; every other comment and every other file are untouched. -/
theorem c1_reply_non_interference (st : StoreState) (f : String)
    (C : ReviewComment) (author message now : String)
    (hmem : C ∈ Store.load st f)
    (hnd : ((Store.load st f).map (·.id)).Nodup) :
    (Store.addReply st f C.id author message now).1 = true ∧
    (∃ k, ∃ hk : k < (Store.load st f).length,
      (Store.load st f).get ⟨k, hk⟩ = C ∧
      Store.load (Store.addReply st f C.id author message now).2.1 f =
        (Store.load st f).set k
          { C with replies := some ((C.replies.getD []) ++
              [⟨author, message, now⟩]) }) ∧
    (∀ g, g ≠ f →
      Store.load (Store.addReply st f C.id author message now).2.1 g =
        Store.load st g) := by
  obtain ⟨k, hk, hget, heq⟩ :=
    addReplyList_nodup ⟨author, message, now⟩ (Store.load st f) C hmem hnd
  have hrw : Store.addReply st f C.id author message now =
      (true, Store.save st f ((Store.load st f).set k
        { C with replies := some ((C.replies.getD []) ++
            [⟨author, message, now⟩]) }), true) := by
    simp only [Store.addReply]
    rw [heq]
  rw [hrw]
  refine ⟨rfl, ⟨k, hk, hget, load_save _ _ _⟩, fun g hg => load_save_ne _ _ _ _ hg⟩

/-- C2: once the store is initialised with a workspace root, a comment
with a recorded (non-empty) `line_content` is outdated exactly when its
file is missing, its anchor line is out of range, or the trimmed current
line differs from the trimmed snapshot; a comment with no recorded
(empty) `line_content` is never reported outdated, whatever the disk
state. -/
theorem c2_outdated_determination (w : String) (fs : FileSystem)
    (c : ReviewComment) :
    (c.line_content ≠ "" →
      (Store.isOutdated (some w) fs c = true ↔ outdatedSpec w fs c)) ∧
    (c.line_content = "" → Store.isOutdated (some w) fs c = false) := by
  constructor
  · intro hne
    simp only [Store.isOutdated]
    rw [if_neg hne]
    unfold outdatedSpec
    rcases hfs : fs (pathJoin w c.file) with _ | content
    · simp
    · simp only []
      by_cases hlt : c.line - 1 < 0 ∨ ((splitChar '\n' content.data).length : Int) ≤ c.line - 1
      · rw [if_pos hlt]
        simp only [true_iff]
        left
        omega
      · rw [if_neg hlt]
        constructor
        · intro h
          right
          exact of_decide_eq_true h
        · intro h
          rcases h with h | h
          · omega
          · exact decide_eq_true h
  · intro heq
    simp only [Store.isOutdated]
    rw [if_pos heq]

/-- Witness for C2 at a concrete workspace, filesystem and comment. -/
theorem c2_outdated_determination_witness :
    Store.isOutdated (some "/ws") sampleFs sampleComment = true ↔
      outdatedSpec "/ws" sampleFs sampleComment :=
  (c2_outdated_determination "/ws" sampleFs sampleComment).1 (by decide)

/-- C4: `create` assigns the id `string(max(numeric ids, 0) + 1)` on any
pre-existing collection (ordered, unordered or non-contiguous alike), and
consequently the n-th of a run of creates on an initially empty collection
receives id `"n"` (the collection's ids after the run are `"1" .. "n"` in
order). -/
theorem c4_id_assignment :
    (∀ (st : StoreState) (f : String) (fields : CommentFields) (now : String),
      (Store.create st f fields now).1.id =
        intToString (Store.maxIdOf (Store.load st f) + 1)) ∧
    (∀ (st : StoreState) (f : String) (inputs : List (CommentFields × String)),
      Store.load st f = [] →
      (Store.load (createMany st f inputs) f).map (·.id) =
        (List.range inputs.length).map canonicalId) := by
  constructor
  · intro st f fields now
    rfl
  · intro st f inputs h0
    have := createMany_ids inputs st f 0 (by rw [h0]; rfl)
      (by rw [h0]; rfl)
    simpa using this

/-- Witness for C4 at a concrete two-create run from the empty store. -/
theorem c4_id_assignment_witness :
    (Store.load (createMany emptyStore "a.ts"
      [(sampleFields, "t1"), (sampleFields, "t2")]) "a.ts").map (·.id) =
      (List.range 2).map canonicalId :=
  c4_id_assignment.2 emptyStore "a.ts" [(sampleFields, "t1"), (sampleFields, "t2")]
    rfl

/-- C5 counterexample: after `create, create, remove "2"`, the collection
still holds comment `"1"`, yet the next `create` returns the
previously-issued and currently-absent id `"2"` — refuting the claim that
this can only happen on an empty collection. -/
theorem c5_counterexample :
    "2" ∈ (runStoreOps emptyStore "a.ts"
        [StoreOp.createOp sampleFields "t1", StoreOp.createOp sampleFields "t2",
         StoreOp.removeOp "2"]).2 ∧
    (∀ c ∈ Store.load (runStoreOps emptyStore "a.ts"
        [StoreOp.createOp sampleFields "t1", StoreOp.createOp sampleFields "t2",
         StoreOp.removeOp "2"]).1 "a.ts", c.id ≠ "2") ∧
    Store.load (runStoreOps emptyStore "a.ts"
        [StoreOp.createOp sampleFields "t1", StoreOp.createOp sampleFields "t2",
         StoreOp.removeOp "2"]).1 "a.ts" ≠ [] ∧
    (Store.create (runStoreOps emptyStore "a.ts"
        [StoreOp.createOp sampleFields "t1", StoreOp.createOp sampleFields "t2",
         StoreOp.removeOp "2"]).1 "a.ts" sampleFields "t4").1.id = "2" := by
  decide

/-- C5 (amended): in any create/remove session the id returned by a
`create` is never one currently present in the collection, and a
previously-issued, currently-absent id is returned only when it equals
`string(max(existing numeric ids, 0) + 1)` at the time of the call (in
particular, on an empty collection ids restart from `"1"`). -/
theorem c5_no_stale_reuse (st : StoreState) (f : String) (ops : List StoreOp)
    (fields : CommentFields) (now : String) :
    ((Store.create (runStoreOps st f ops).1 f fields now).1.id ∉
      (Store.load (runStoreOps st f ops).1 f).map (·.id)) ∧
    ((Store.create (runStoreOps st f ops).1 f fields now).1.id ∈
        (runStoreOps st f ops).2 →
      (Store.create (runStoreOps st f ops).1 f fields now).1.id ∉
        (Store.load (runStoreOps st f ops).1 f).map (·.id) →
      (Store.create (runStoreOps st f ops).1 f fields now).1.id =
        intToString (Store.maxIdOf (Store.load (runStoreOps st f ops).1 f) + 1)) :=
  ⟨fresh_id_not_mem _, fun _ _ => rfl⟩

/-- Witness for C5 (amended) on the counterexample trace. -/
theorem c5_no_stale_reuse_witness :
    (Store.create (runStoreOps emptyStore "a.ts"
        [StoreOp.createOp sampleFields "t1", StoreOp.createOp sampleFields "t2",
         StoreOp.removeOp "2"]).1 "a.ts" sampleFields "t4").1.id =
      intToString (Store.maxIdOf (Store.load (runStoreOps emptyStore "a.ts"
        [StoreOp.createOp sampleFields "t1", StoreOp.createOp sampleFields "t2",
         StoreOp.removeOp "2"]).1 "a.ts") + 1) :=
  (c5_no_stale_reuse emptyStore "a.ts"
      [StoreOp.createOp sampleFields "t1", StoreOp.createOp sampleFields "t2",
       StoreOp.removeOp "2"] sampleFields "t4").2 (by decide) (by decide)

/-- Witness for C1 at a concrete store and comment. -/
theorem c1_reply_non_interference_witness :
    (Store.addReply sampleStore "a.ts" sampleComment.id "user" "done" "t9").1 = true ∧
    (∃ k, ∃ hk : k < (Store.load sampleStore "a.ts").length,
      (Store.load sampleStore "a.ts").get ⟨k, hk⟩ = sampleComment ∧
      Store.load (Store.addReply sampleStore "a.ts" sampleComment.id
          "user" "done" "t9").2.1 "a.ts" =
        (Store.load sampleStore "a.ts").set k
          { sampleComment with replies := some ((sampleComment.replies.getD []) ++ [⟨"user", "done", "t9"⟩]) }) ∧
    (∀ g, g ≠ "a.ts" →
      Store.load (Store.addReply sampleStore "a.ts" sampleComment.id
          "user" "done" "t9").2.1 g = Store.load sampleStore g) :=
  c1_reply_non_interference sampleStore "a.ts" sampleComment "user" "done" "t9"
    (by decide) (by decide)

/-- C8 counterexample: a present-but-empty `existingCommentId` is routed
to the new-comment branch rather than the reply branch, and a text whose
trimmed first line is empty receives the default title `"User Comment"`
rather than the (empty) derived first-line title. -/
theorem c8_counterexample :
    ((Service.handleCommentOrReply true (some "/ws") sampleFs sampleStore
        { file := "a.ts", line := 5, text := "hello",
          existingCommentId := some "" } "t9").1.kind = Service.HandleKind.comment ∧
      (some "" : Option String).isSome = true) ∧
    ((Service.handleCommentOrReply true (some "/ws") sampleFs sampleStore
        { file := "a.ts", line := 5, text := "   \n x",
          existingCommentId := none } "t9").1.comment.map (fun c => c.title) =
      some (some "User Comment") ∧
      jsTrim ⟨(splitChar '\n' ("   \n x" : String).data).headD []⟩ = "") := by
  constructor
  · exact ⟨by decide, by decide⟩
  · exact ⟨by decide, by decide⟩

/-- C8 (amended): with the service initialised, a non-empty
`existingCommentId` routes to a reply authored by `user`, returning kind
`reply` with success exactly when the id exists in the file's collection;
an absent or empty `existingCommentId` creates a new root comment authored
by `user` with severity `info`, message equal to the text, and title the
trimmed first line truncated at 50 characters with an ellipsis marker —
except that an empty trimmed first line yields the default title
`"User Comment"`. -/
theorem c8_handle_branching (st : StoreState) (ws : Option String)
    (fs : FileSystem) (input : Service.CommentInput) (now : String) :
    (∀ eid, input.existingCommentId = some eid → eid ≠ "" →
      (Service.handleCommentOrReply true ws fs st input now).1.kind =
        Service.HandleKind.reply ∧
      ((Service.handleCommentOrReply true ws fs st input now).1.success = true ↔
        ∃ c ∈ Store.load st input.file, c.id = eid) ∧
      (Service.handleCommentOrReply true ws fs st input now).2 =
        (Service.addReply true st input.file eid Author.user input.text now).2) ∧
    ((input.existingCommentId = none ∨ input.existingCommentId = some "") →
      (Service.handleCommentOrReply true ws fs st input now).1.kind =
        Service.HandleKind.comment ∧
      (Service.handleCommentOrReply true ws fs st input now).1.success = true ∧
      (∃ c, (Service.handleCommentOrReply true ws fs st input now).1.comment =
          some c ∧
        c.author = some Author.user ∧ c.severity = Severity.info ∧
        c.message = input.text ∧
        c.title = some (jsOrString (some (Service.derivedTitle input.text))
          "User Comment")) ∧
      (50 < (trimChars ((splitChar '\n' input.text.data).headD [])).length →
        Service.derivedTitle input.text =
          ⟨(trimChars ((splitChar '\n' input.text.data).headD [])).take 50 ++
            ['.', '.', '.']⟩) ∧
      ((trimChars ((splitChar '\n' input.text.data).headD [])).length ≤ 50 →
        Service.derivedTitle input.text =
          ⟨trimChars ((splitChar '\n' input.text.data).headD [])⟩)) := by
  constructor
  · intro eid heid hne
    have htr : jsTruthyStr (some eid) = true := by
      simpa [jsTruthyStr] using hne
    simp only [Service.handleCommentOrReply, heid, htr, if_true, Option.getD_some]
    exact ⟨trivial, serviceAddReply_success_iff st input.file eid Author.user
      input.text now, trivial⟩
  · intro hncase
    have htr : jsTruthyStr input.existingCommentId = false := by
      rcases hncase with h | h <;> simp [jsTruthyStr, h]
    simp only [Service.handleCommentOrReply, htr, Bool.false_eq_true, if_false]
    simp only [Service.addComment, Bool.not_true, Bool.false_eq_true, if_false]
    refine ⟨trivial, trivial, ⟨_, rfl, rfl, rfl, rfl, rfl⟩, ?_, ?_⟩
    · intro hgt
      unfold Service.derivedTitle
      rw [if_pos (by simpa using hgt)]
    · intro hle
      unfold Service.derivedTitle
      rw [if_neg (by simpa using hle)]

/-- C9: across any sequence of service operations (`addComment`,
`removeComment`, `resolveComment`, `addReply`, `checkOutdatedForFile`) in
which the tracked comment is never deleted, a comment whose `outdated`
flag is `true` keeps it `true` — whatever each operation's filesystem
snapshot says, including a line reverted to the stored snapshot. -/
theorem c9_outdated_monotonic (ui : Bool) (ws : Option String)
    (st : StoreState) (ops : List ServiceOp) (f i : String)
    (hex : ∃ c ∈ Store.load st f, c.id = i)
    (hout : ∀ c ∈ Store.load st f, c.id = i → c.outdated = some true)
    (hno : ∀ op ∈ ops, isRemoveOf f i op = false) :
    ∀ c ∈ Store.load (runServiceOps ui ws st ops) f, c.id = i →
      c.outdated = some true :=
  (runServiceOps_preserves_inv ui ws f i ops st hno hex hout).2

/-- Witness for C9 on a concrete trace over an outdated comment: the
surviving comment of id `"1"` still carries `outdated = true` after a
resolve, a reply and a recheck against a reverted snapshot. -/
theorem c9_outdated_monotonic_witness :
    ({ id := "1", file := "a.ts", line := 5, endLine := none,
       line_content := "const x = 1;", diff_hunk := none,
       message := "fix this", severity := Severity.warning,
       title := some "T", resolved := some true, outdated := some true,
       created_at := "t0", author := some Author.claude,
       replies := some [{ author := "user", message := "m", timestamp := "t5" }] }
      : ReviewComment) ∈
      Store.load (runServiceOps true (some "/ws") sampleStoreOutdated
        [ServiceOp.resC "a.ts" "1",
         ServiceOp.repC "a.ts" "1" Author.user "m" "t5",
         ServiceOp.chkC "a.ts" sampleFs]) "a.ts" ∧
    ({ id := "1", file := "a.ts", line := 5, endLine := none,
       line_content := "const x = 1;", diff_hunk := none,
       message := "fix this", severity := Severity.warning,
       title := some "T", resolved := some true, outdated := some true,
       created_at := "t0", author := some Author.claude,
       replies := some [{ author := "user", message := "m", timestamp := "t5" }] }
      : ReviewComment).outdated = some true :=
  ⟨by decide,
   c9_outdated_monotonic true (some "/ws") sampleStoreOutdated
    [ServiceOp.resC "a.ts" "1",
     ServiceOp.repC "a.ts" "1" Author.user "m" "t5",
     ServiceOp.chkC "a.ts" sampleFs] "a.ts" "1"
    (by decide) (by decide) (by decide) _ (by decide) (by decide)⟩

/-- C10 counterexample: for the empty source path the encoded filename is
exactly `.jsonl.gz`, which Node's `path.basename(p, ext)` returns whole
when the basename equals the extension, so decoding yields `".jsonl.gz"`
rather than the original empty path. -/
theorem c10_counterexample :
    decodeFilePathM (getCommentsPathM "/ws" "") ≠ some (replaceBackslash "") ∧
    decodeFilePathM (getCommentsPathM "/ws" "") = some ".jsonl.gz" :=
  ⟨by decide, by decide⟩

/-- C10 (amended): for every non-empty source path `p`,
`decodeFilePath(getCommentsPath(p))` equals `p` with every backslash
replaced by a forward slash; in particular the encode/decode pair is an
exact identity round trip on non-empty backslash-free paths, including
paths with spaces, percent signs, non-ASCII text, or a literal `.jsonl.gz`
suffix. -/
theorem c10_path_round_trip (ws p : String) (hp : p ≠ "") :
    decodeFilePathM (getCommentsPathM ws p) = some (replaceBackslash p) := by
  have henq : encodeURIChars (replaceBackslash p).data ≠ [] := by
    have h0 : p.data ≠ [] := data_ne_nil_of_ne_empty p hp
    have h1 : 1 ≤ (replaceBackslash p).data.length := by
      show 1 ≤ (p.data.map _).length
      rw [List.length_map]
      have : p.data.length ≠ 0 := fun hh =>
        h0 (List.length_eq_zero.1 hh)
      omega
    have h2 := length_le_encode (replaceBackslash p).data
    intro h
    rw [h] at h2
    simp only [List.length_nil, Nat.le_zero] at h2
    omega
  have hslash : ∀ x ∈ encodeURIChars (replaceBackslash p).data ++
      (".jsonl.gz" : String).data, ¬x = '/' := by
    intro x hx
    rcases List.mem_append.1 hx with h1 | h1
    · exact mem_encodeChars_ne_slash _ x h1
    · simp only [show (".jsonl.gz" : String).data =
        ['.', 'j', 's', 'o', 'n', 'l', '.', 'g', 'z'] from by decide,
        List.mem_cons, List.not_mem_nil, or_false] at h1
      rcases h1 with h | h | h | h | h | h | h | h | h <;> subst h <;> decide
  have hdata : (getCommentsPathM ws p).data =
      (ws.data ++ ("/.review/files" : String).data) ++
        '/' :: (encodeURIChars (replaceBackslash p).data ++
          (".jsonl.gz" : String).data) := by
    show (ws ++ "/.review/files/" ++ encodeURIComponentM (replaceBackslash p) ++
      ".jsonl.gz").data = _
    rw [String.data_append, String.data_append, String.data_append]
    rw [show ("/.review/files/" : String).data =
      ("/.review/files" : String).data ++ ['/'] from by decide]
    rw [show (encodeURIComponentM (replaceBackslash p)).data =
      encodeURIChars (replaceBackslash p).data from rfl]
    simp [List.append_assoc]
  simp only [decodeFilePathM, nodeBasename]
  rw [hdata, lastComponent_append _ _ hslash]
  rw [if_neg (show ¬(encodeURIChars (replaceBackslash p).data ++
      (".jsonl.gz" : String).data = (".jsonl.gz" : String).data) from by
    intro h
    apply henq
    have hl := congrArg List.length h
    rw [List.length_append] at hl
    rw [← List.length_eq_zero]
    omega)]
  rw [dropSuffix_append]
  show decodeURIComponentM ⟨encodeURIChars (replaceBackslash p).data⟩ = _
  unfold decodeURIComponentM
  rw [show (String.mk (encodeURIChars (replaceBackslash p).data)).data =
    encodeURIChars (replaceBackslash p).data from rfl]
  rw [decode_encode]
  rfl

/-- Witness for C10 (amended) at a concrete path containing a space, a
percent sign and a slash. -/
theorem c10_path_round_trip_witness :
    decodeFilePathM (getCommentsPathM "/ws" "src/App 100%.tsx") =
      some (replaceBackslash "src/App 100%.tsx") :=
  c10_path_round_trip "/ws" "src/App 100%.tsx" (by decide)

/-- Witness for C8 (amended) on concrete reply and create inputs. -/
theorem c8_handle_branching_witness :
    ((Service.handleCommentOrReply true (some "/ws") sampleFs sampleStore
        { file := "a.ts", line := 5, text := "ok",
          existingCommentId := some "1" } "t9").1.kind =
      Service.HandleKind.reply ∧
      ((Service.handleCommentOrReply true (some "/ws") sampleFs sampleStore
        { file := "a.ts", line := 5, text := "ok",
          existingCommentId := some "1" } "t9").1.success = true ↔
        ∃ c ∈ Store.load sampleStore "a.ts", c.id = "1") ∧
      (Service.handleCommentOrReply true (some "/ws") sampleFs sampleStore
        { file := "a.ts", line := 5, text := "ok",
          existingCommentId := some "1" } "t9").2 =
        (Service.addReply true sampleStore "a.ts" "1" Author.user "ok" "t9").2) :=
  (c8_handle_branching sampleStore (some "/ws") sampleFs
    { file := "a.ts", line := 5, text := "ok", existingCommentId := some "1" }
    "t9").1 "1" rfl (by decide)

end LocalPR

/-! ## Round trip of the JSONL persistence layer (C3) -/

namespace LocalPR

theorem hexVal_hexDigitL : ∀ k, k < 16 → hexVal (hexDigitL k) = some k := by
  decide

theorem psbF_step (fuel : Nat) (c : Char) (tail : List Char) :
    parseStrBodyF (fuel + 1) (escapeJsonChar c ++ tail) =
      (parseStrBodyF fuel tail).map (fun q => (c :: q.1, q.2)) := by
  unfold escapeJsonChar
  by_cases h1 : c = '"'
  · subst h1
    rw [if_pos rfl]
    show parseStrBodyF (fuel + 1) ('\\' :: '"' :: tail) = _
    conv_lhs => rw [parseStrBodyF]
    rw [if_neg (by decide), if_pos rfl]
    rw [show parseEsc ('"' :: tail) = some ('"', tail) from rfl]
    rfl
  · rw [if_neg h1]
    by_cases h2 : c = '\\'
    · subst h2
      rw [if_pos rfl]
      show parseStrBodyF (fuel + 1) ('\\' :: '\\' :: tail) = _
      conv_lhs => rw [parseStrBodyF]
      rw [if_neg (by decide), if_pos rfl]
      rw [show parseEsc ('\\' :: tail) = some ('\\', tail) from rfl]
      rfl
    · rw [if_neg h2]
      by_cases h3 : c.toNat = 8
      · rw [if_pos h3]
        have hc : Char.ofNat 8 = c := by rw [← h3]; exact Char.ofNat_toNat c
        show parseStrBodyF (fuel + 1) ('\\' :: 'b' :: tail) = _
        conv_lhs => rw [parseStrBodyF]
        rw [if_neg (by decide), if_pos rfl]
        rw [show parseEsc ('b' :: tail) = some (Char.ofNat 8, tail) from rfl, hc]
        rfl
      · rw [if_neg h3]
        by_cases h4 : c.toNat = 9
        · rw [if_pos h4]
          have hc : Char.ofNat 9 = c := by rw [← h4]; exact Char.ofNat_toNat c
          show parseStrBodyF (fuel + 1) ('\\' :: 't' :: tail) = _
          conv_lhs => rw [parseStrBodyF]
          rw [if_neg (by decide), if_pos rfl]
          rw [show parseEsc ('t' :: tail) = some (Char.ofNat 9, tail) from rfl, hc]
          rfl
        · rw [if_neg h4]
          by_cases h5 : c.toNat = 10
          · rw [if_pos h5]
            have hc : Char.ofNat 10 = c := by rw [← h5]; exact Char.ofNat_toNat c
            show parseStrBodyF (fuel + 1) ('\\' :: 'n' :: tail) = _
            conv_lhs => rw [parseStrBodyF]
            rw [if_neg (by decide), if_pos rfl]
            rw [show parseEsc ('n' :: tail) = some ('\n', tail) from rfl]
            rw [show '\n' = Char.ofNat 10 from rfl, hc]
            rfl
          · rw [if_neg h5]
            by_cases h6 : c.toNat = 12
            · rw [if_pos h6]
              have hc : Char.ofNat 12 = c := by rw [← h6]; exact Char.ofNat_toNat c
              show parseStrBodyF (fuel + 1) ('\\' :: 'f' :: tail) = _
              conv_lhs => rw [parseStrBodyF]
              rw [if_neg (by decide), if_pos rfl]
              rw [show parseEsc ('f' :: tail) = some (Char.ofNat 12, tail) from rfl, hc]
              rfl
            · rw [if_neg h6]
              by_cases h7 : c.toNat = 13
              · rw [if_pos h7]
                have hc : Char.ofNat 13 = c := by rw [← h7]; exact Char.ofNat_toNat c
                show parseStrBodyF (fuel + 1) ('\\' :: 'r' :: tail) = _
                conv_lhs => rw [parseStrBodyF]
                rw [if_neg (by decide), if_pos rfl]
                rw [show parseEsc ('r' :: tail) = some (Char.ofNat 13, tail) from rfl, hc]
                rfl
              · rw [if_neg h7]
                by_cases h8 : c.toNat < 32
                · rw [if_pos h8]
                  show parseStrBodyF (fuel + 1)
                    ('\\' :: 'u' :: '0' :: '0' :: hexDigitL (c.toNat / 16) ::
                      hexDigitL (c.toNat % 16) :: tail) = _
                  conv_lhs => rw [parseStrBodyF]
                  rw [if_neg (by decide), if_pos rfl]
                  rw [show parseEsc ('u' :: '0' :: '0' :: hexDigitL (c.toNat / 16) ::
                      hexDigitL (c.toNat % 16) :: tail) =
                    parseUEsc ('0' :: '0' :: hexDigitL (c.toNat / 16) ::
                      hexDigitL (c.toNat % 16) :: tail) from rfl]
                  rw [show parseUEsc ('0' :: '0' :: hexDigitL (c.toNat / 16) ::
                      hexDigitL (c.toNat % 16) :: tail) =
                    (hexQuad '0' '0' (hexDigitL (c.toNat / 16))
                      (hexDigitL (c.toNat % 16))).bind
                      (fun n => (mkScalar n).map (fun ch => (ch, tail))) from rfl]
                  have hq : hexQuad '0' '0' (hexDigitL (c.toNat / 16))
                      (hexDigitL (c.toNat % 16)) =
                      some (((0 * 16 + 0) * 16 + c.toNat / 16) * 16 + c.toNat % 16) := by
                    unfold hexQuad
                    rw [show hexVal '0' = some 0 from rfl]
                    rw [hexVal_hexDigitL _ (by omega), hexVal_hexDigitL _ (by omega)]
                    rfl
                  rw [hq, Option.some_bind]
                  rw [show ((0 * 16 + 0) * 16 + c.toNat / 16) * 16 + c.toNat % 16 =
                    c.toNat from by omega]
                  rw [mkScalar_valid]
                  rfl
                · rw [if_neg h8]
                  show parseStrBodyF (fuel + 1) (c :: tail) = _
                  conv_lhs => rw [parseStrBodyF]
                  rw [if_neg h1, if_neg h2, if_neg h8]

theorem psbF_body : ∀ (s : List Char) (k : Nat) (rest : List Char),
    parseStrBodyF (s.length + k + 1) (s.flatMap escapeJsonChar ++ '"' :: rest) =
      some (s, rest)
  | [], k, rest => by
    show parseStrBodyF (k + 1) ('"' :: rest) = some ([], rest)
    conv_lhs => rw [parseStrBodyF]
    rw [if_pos rfl]
  | c :: s', k, rest => by
    rw [show (c :: s').length + k + 1 = (s'.length + k + 1) + 1 from by
      rw [List.length_cons]; omega]
    rw [show (c :: s').flatMap escapeJsonChar =
      escapeJsonChar c ++ s'.flatMap escapeJsonChar from List.flatMap_cons c s' _]
    rw [List.append_assoc]
    rw [psbF_step (s'.length + k + 1) c _]
    rw [psbF_body s' k rest]
    rfl

theorem escapeJsonChar_len (c : Char) : 1 ≤ (escapeJsonChar c).length := by
  unfold escapeJsonChar
  split_ifs <;> simp

theorem flatMap_escape_len (s : List Char) :
    s.length ≤ (s.flatMap escapeJsonChar).length := by
  induction s with
  | nil => simp
  | cons c s' ih =>
    rw [List.flatMap_cons, List.length_append, List.length_cons]
    have := escapeJsonChar_len c
    omega

theorem parseStrBody_emit (s : String) (tail : List Char) :
    parseStrBody (s.data.flatMap escapeJsonChar ++ '"' :: tail) =
      some (s.data, tail) := by
  unfold parseStrBody
  have hb := flatMap_escape_len s.data
  rw [show (s.data.flatMap escapeJsonChar ++ '"' :: tail).length + 1 =
    s.data.length + ((s.data.flatMap escapeJsonChar).length - s.data.length +
      tail.length + 1) + 1 from by
    rw [List.length_append, List.length_cons]; omega]
  exact psbF_body s.data _ tail

theorem takeWhile_all_append (p : Char → Bool) :
    ∀ (l rest : List Char), (∀ c ∈ l, p c = true) →
      (∀ c, rest.head? = some c → p c = false) →
      (l ++ rest).takeWhile p = l ∧ (l ++ rest).dropWhile p = rest
  | [], rest, _, hr => by
    cases rest with
    | nil => exact ⟨rfl, rfl⟩
    | cons c r =>
      have := hr c rfl
      rw [List.nil_append]
      exact ⟨List.takeWhile_cons_of_neg (by simp [this]),
        List.dropWhile_cons_of_neg (by simp [this])⟩
  | c :: l', rest, hl, hr => by
    have hc := hl c (List.mem_cons_self c l')
    have ih := takeWhile_all_append p l' rest
      (fun d hd => hl d (List.mem_cons_of_mem c hd)) hr
    rw [List.cons_append]
    rw [List.takeWhile_cons_of_pos hc, List.dropWhile_cons_of_pos hc]
    exact ⟨by rw [ih.1], ih.2⟩

theorem parseJNum_emit (n : Int) (rest : List Char)
    (hr : ∀ c, rest.head? = some c → isDigitCh c = false) :
    parseJNum (emitInt n ++ rest) = some (n, rest) := by
  unfold emitInt
  by_cases hn : n < 0
  · rw [if_pos hn]
    have htw := takeWhile_all_append isDigitCh (natToChars (-n).toNat) rest
      (fun c hc => mem_natToChars_digit _ c hc) hr
    show parseJNum ('-' :: (natToChars (-n).toNat ++ rest)) = some (n, rest)
    conv_lhs => rw [parseJNum]
    rw [if_pos rfl, htw.1, if_neg (natToChars_ne_nil _), htw.2]
    rw [digitsToNat_natToChars]
    rw [show -((-n).toNat : Int) = n from by omega]
  · rw [if_neg hn]
    obtain ⟨d, ds', hds⟩ := List.exists_cons_of_ne_nil (natToChars_ne_nil n.toNat)
    have hd : isDigitCh d = true := mem_natToChars_digit n.toNat d
      (by rw [hds]; exact List.mem_cons_self d ds')
    have htw := takeWhile_all_append isDigitCh (natToChars n.toNat) rest
      (fun c hc => mem_natToChars_digit _ c hc) hr
    rw [hds] at htw ⊢
    rw [List.cons_append]
    conv_lhs => rw [parseJNum]
    rw [if_neg (show ¬d = '-' from by
      intro h
      rw [h] at hd
      simp [isDigitCh] at hd)]
    rw [show d :: (ds' ++ rest) = (d :: ds') ++ rest from rfl]
    rw [htw.1, if_neg (by simp), htw.2]
    rw [← hds, digitsToNat_natToChars]
    rw [show (n.toNat : Int) = n from by omega]

theorem parseFlatVal_quote (X : List Char) :
    parseFlatVal ('"' :: X) =
      (parseStrBody X).map (fun p => (JVal.jstr ⟨p.1⟩, p.2)) := rfl

theorem parseFlatVal_true (r : List Char) :
    parseFlatVal ('t' :: 'r' :: 'u' :: 'e' :: r) = some (JVal.jbool true, r) := rfl

theorem parseFlatVal_false (r : List Char) :
    parseFlatVal ('f' :: 'a' :: 'l' :: 's' :: 'e' :: r) =
      some (JVal.jbool false, r) := rfl

theorem parseFlatVal_emptyArr (r : List Char) :
    parseFlatVal ('[' :: ']' :: r) = some (JVal.jarr [], r) := rfl

theorem parseFlatVal_arr (Y : List Char) :
    parseFlatVal ('[' :: '{' :: Y) =
      (parseObjList (('{' :: Y).length + 1) ('{' :: Y)).map
        (fun p => (JVal.jarr p.1, p.2)) := rfl

theorem parseFlatVal_other (c : Char) (rest : List Char)
    (h1 : ¬c = '"') (h2 : ¬c = 't') (h3 : ¬c = 'f') (h4 : ¬c = '[') :
    parseFlatVal (c :: rest) =
      (parseJNum (c :: rest)).map (fun p => (JVal.jnum p.1, p.2)) := by
  conv_lhs => rw [parseFlatVal]
  rw [if_neg h1, if_neg h2, if_neg h3, if_neg h4]


theorem joinSep_len_ge (sep : Char) :
    ∀ xss : List (List Char), (∀ xs ∈ xss, xs ≠ []) →
      xss.length ≤ (joinSep sep xss).length
  | [], _ => by simp [joinSep]
  | [x], hx => by
    rw [show joinSep sep [x] = x from rfl]
    have : x ≠ [] := hx x (List.mem_singleton_self x)
    rw [List.length_singleton]
    exact List.length_pos.2 this
  | x :: y :: ys, hx => by
    rw [show joinSep sep (x :: y :: ys) = x ++ sep :: joinSep sep (y :: ys) from rfl]
    have ih := joinSep_len_ge sep (y :: ys)
      (fun xs hm => hx xs (List.mem_cons_of_mem x hm))
    rw [List.length_append, List.length_cons, List.length_cons, List.length_cons]
    rw [List.length_cons] at ih
    omega

theorem emitStrPair_shape (kv : String × String) (t : List Char) :
    emitStrPair kv ++ t =
      '"' :: (kv.1.data.flatMap escapeJsonChar ++ '"' :: ':' :: '"' ::
        (kv.2.data.flatMap escapeJsonChar ++ '"' :: t)) := by
  simp [emitStrPair, emitStr, List.append_assoc]

theorem parseStrPairs_emit :
    ∀ (ps : List (String × String)) (k : Nat) (tail : List Char), ps ≠ [] →
      parseStrPairs (ps.length + k) (joinSep ',' (ps.map emitStrPair) ++ '}' :: tail) =
        some (ps, tail)
  | [], _, _, h => absurd rfl h
  | [kv], k, tail, _ => by
    rw [show ([kv].map emitStrPair) = [emitStrPair kv] from rfl]
    rw [show joinSep ',' [emitStrPair kv] = emitStrPair kv from rfl]
    rw [emitStrPair_shape kv ('}' :: tail)]
    rw [show [kv].length + k = k + 1 from by simp; omega]
    conv_lhs => rw [parseStrPairs]
    rw [show expectQuote ('"' :: (kv.1.data.flatMap escapeJsonChar ++ '"' :: ':' ::
      '"' :: (kv.2.data.flatMap escapeJsonChar ++ '"' :: '}' :: tail))) =
      some (kv.1.data.flatMap escapeJsonChar ++ '"' :: ':' :: '"' ::
        (kv.2.data.flatMap escapeJsonChar ++ '"' :: '}' :: tail)) from rfl]
    rw [Option.some_bind]
    rw [parseStrBody_emit kv.1, Option.some_bind]
    rw [show expectColonQuote (':' :: '"' ::
      (kv.2.data.flatMap escapeJsonChar ++ '"' :: '}' :: tail)) =
      some (kv.2.data.flatMap escapeJsonChar ++ '"' :: '}' :: tail) from rfl]
    rw [Option.some_bind]
    rw [parseStrBody_emit kv.2, Option.some_bind]
    rw [show commaOrBrace ('}' :: tail) = some (false, tail) from rfl]
    rw [Option.some_bind]
    rfl
  | kv :: p2 :: ps'', k, tail, _ => by
    rw [List.map_cons]
    rw [show joinSep ',' (emitStrPair kv :: (p2 :: ps'').map emitStrPair) =
      emitStrPair kv ++ ',' :: joinSep ',' ((p2 :: ps'').map emitStrPair) from rfl]
    rw [List.append_assoc, List.cons_append]
    rw [emitStrPair_shape kv
      (',' :: (joinSep ',' ((p2 :: ps'').map emitStrPair) ++ '}' :: tail))]
    rw [show (kv :: p2 :: ps'').length + k = ((p2 :: ps'').length + k) + 1 from by
      rw [List.length_cons]; omega]
    conv_lhs => rw [parseStrPairs]
    rw [show expectQuote ('"' :: (kv.1.data.flatMap escapeJsonChar ++ '"' :: ':' ::
      '"' :: (kv.2.data.flatMap escapeJsonChar ++ '"' :: ',' ::
        (joinSep ',' ((p2 :: ps'').map emitStrPair) ++ '}' :: tail)))) =
      some (kv.1.data.flatMap escapeJsonChar ++ '"' :: ':' :: '"' ::
        (kv.2.data.flatMap escapeJsonChar ++ '"' :: ',' ::
          (joinSep ',' ((p2 :: ps'').map emitStrPair) ++ '}' :: tail))) from rfl]
    rw [Option.some_bind]
    rw [parseStrBody_emit kv.1, Option.some_bind]
    rw [show expectColonQuote (':' :: '"' ::
      (kv.2.data.flatMap escapeJsonChar ++ '"' :: ',' ::
        (joinSep ',' ((p2 :: ps'').map emitStrPair) ++ '}' :: tail))) =
      some (kv.2.data.flatMap escapeJsonChar ++ '"' :: ',' ::
        (joinSep ',' ((p2 :: ps'').map emitStrPair) ++ '}' :: tail)) from rfl]
    rw [Option.some_bind]
    rw [parseStrBody_emit kv.2, Option.some_bind]
    rw [show commaOrBrace (',' ::
      (joinSep ',' ((p2 :: ps'').map emitStrPair) ++ '}' :: tail)) =
      some (true, joinSep ',' ((p2 :: ps'').map emitStrPair) ++ '}' :: tail) from rfl]
    rw [Option.some_bind]
    rw [show ((true : Bool), joinSep ',' ((p2 :: ps'').map emitStrPair) ++
      '}' :: tail).1 = true from rfl]
    rw [if_pos rfl]
    rw [parseStrPairs_emit (p2 :: ps'') k tail (by simp)]
    rfl


theorem emitStrPair_ne_nil (kv : String × String) : emitStrPair kv ≠ [] := by
  simp [emitStrPair, emitStr]

theorem objContents_emit (ps : List (String × String)) (t : List Char) :
    objContents (joinSep ',' (ps.map emitStrPair) ++ '}' :: t) = some (ps, t) := by
  cases ps with
  | nil => rfl
  | cons kv ps' =>
    have hlen : (kv :: ps').length ≤
        (joinSep ',' ((kv :: ps').map emitStrPair)).length := by
      have hj := joinSep_len_ge ',' ((kv :: ps').map emitStrPair)
        (by intro xs hm
            rw [List.mem_map] at hm
            obtain ⟨p, _, hp⟩ := hm
            rw [← hp]
            exact emitStrPair_ne_nil p)
      rw [List.length_map] at hj
      exact hj
    obtain ⟨X, hX⟩ : ∃ X, joinSep ',' ((kv :: ps').map emitStrPair) ++ '}' :: t =
        '"' :: X := by
      cases ps' with
      | nil =>
        refine ⟨kv.1.data.flatMap escapeJsonChar ++ '"' :: ':' :: '"' ::
          (kv.2.data.flatMap escapeJsonChar ++ '"' :: '}' :: t), ?_⟩
        rw [show ([kv].map emitStrPair) = [emitStrPair kv] from rfl]
        rw [show joinSep ',' [emitStrPair kv] = emitStrPair kv from rfl]
        rw [emitStrPair_shape]
      | cons p2 ps'' =>
        refine ⟨kv.1.data.flatMap escapeJsonChar ++ '"' :: ':' :: '"' ::
          (kv.2.data.flatMap escapeJsonChar ++ '"' :: ',' ::
            (joinSep ',' ((p2 :: ps'').map emitStrPair) ++ '}' :: t)), ?_⟩
        rw [List.map_cons]
        rw [show joinSep ',' (emitStrPair kv :: (p2 :: ps'').map emitStrPair) =
          emitStrPair kv ++ ',' :: joinSep ',' ((p2 :: ps'').map emitStrPair) from rfl]
        rw [List.append_assoc, List.cons_append]
        rw [emitStrPair_shape]
    rw [hX]
    rw [show objContents ('"' :: X) =
      parseStrPairs (('"' :: X).length + 1) ('"' :: X) from rfl]
    rw [← hX]
    have hlx : (joinSep ',' ((kv :: ps').map emitStrPair) ++ '}' :: t).length + 1 =
        (kv :: ps').length + ((joinSep ',' ((kv :: ps').map emitStrPair)).length +
          t.length + 2 - (kv :: ps').length) := by
      rw [List.length_append, List.length_cons]
      omega
    rw [hlx]
    exact parseStrPairs_emit (kv :: ps') _ t (by simp)

theorem emitStrObj_shape (o : List (String × String)) (t : List Char) :
    emitStrObj o ++ t = '{' :: (joinSep ',' (o.map emitStrPair) ++ '}' :: t) := by
  simp [emitStrObj, List.append_assoc]

theorem emitStrObj_ne_nil (o : List (String × String)) : emitStrObj o ≠ [] := by
  simp [emitStrObj]

theorem parseObjList_emit :
    ∀ (objs : List (List (String × String))) (k : Nat) (t : List Char), objs ≠ [] →
      parseObjList (objs.length + k) (joinSep ',' (objs.map emitStrObj) ++ ']' :: t) =
        some (objs, t)
  | [], _, _, h => absurd rfl h
  | [o], k, t, _ => by
    rw [show ([o].map emitStrObj) = [emitStrObj o] from rfl]
    rw [show joinSep ',' [emitStrObj o] = emitStrObj o from rfl]
    rw [emitStrObj_shape o (']' :: t)]
    rw [show [o].length + k = k + 1 from by simp; omega]
    conv_lhs => rw [parseObjList]
    rw [show expectBrace ('{' :: (joinSep ',' (o.map emitStrPair) ++ '}' :: ']' :: t)) =
      some (joinSep ',' (o.map emitStrPair) ++ '}' :: ']' :: t) from rfl]
    rw [Option.some_bind]
    rw [objContents_emit o (']' :: t), Option.some_bind]
    rw [show commaOrBracket (']' :: t) = some (false, t) from rfl]
    rw [Option.some_bind]
    rfl
  | o :: o2 :: os'', k, t, _ => by
    rw [List.map_cons]
    rw [show joinSep ',' (emitStrObj o :: (o2 :: os'').map emitStrObj) =
      emitStrObj o ++ ',' :: joinSep ',' ((o2 :: os'').map emitStrObj) from rfl]
    rw [List.append_assoc, List.cons_append]
    rw [emitStrObj_shape o
      (',' :: (joinSep ',' ((o2 :: os'').map emitStrObj) ++ ']' :: t))]
    rw [show (o :: o2 :: os'').length + k = ((o2 :: os'').length + k) + 1 from by
      rw [List.length_cons]; omega]
    conv_lhs => rw [parseObjList]
    rw [show expectBrace ('{' :: (joinSep ',' (o.map emitStrPair) ++ '}' :: ',' ::
      (joinSep ',' ((o2 :: os'').map emitStrObj) ++ ']' :: t))) =
      some (joinSep ',' (o.map emitStrPair) ++ '}' :: ',' ::
        (joinSep ',' ((o2 :: os'').map emitStrObj) ++ ']' :: t)) from rfl]
    rw [Option.some_bind]
    rw [objContents_emit o (',' ::
      (joinSep ',' ((o2 :: os'').map emitStrObj) ++ ']' :: t))]
    rw [Option.some_bind]
    rw [show commaOrBracket (',' ::
      (joinSep ',' ((o2 :: os'').map emitStrObj) ++ ']' :: t)) =
      some (true, joinSep ',' ((o2 :: os'').map emitStrObj) ++ ']' :: t) from rfl]
    rw [Option.some_bind]
    rw [show ((true : Bool), joinSep ',' ((o2 :: os'').map emitStrObj) ++
      ']' :: t).1 = true from rfl]
    rw [if_pos rfl]
    rw [parseObjList_emit (o2 :: os'') k t (by simp)]
    rfl


theorem parseFlatVal_emit (v : JVal) (rest : List Char)
    (hr : ∀ c, rest.head? = some c → isDigitCh c = false) :
    parseFlatVal (emitJVal v ++ rest) = some (v, rest) := by
  cases v with
  | jstr s =>
    rw [show emitJVal (JVal.jstr s) = emitStr s from rfl]
    rw [show emitStr s ++ rest =
      '"' :: (s.data.flatMap escapeJsonChar ++ '"' :: rest) from by
      simp [emitStr, List.append_assoc]]
    rw [parseFlatVal_quote, parseStrBody_emit s rest]
    rfl
  | jnum n =>
    rw [show emitJVal (JVal.jnum n) = emitInt n from rfl]
    have hpj := parseJNum_emit n rest hr
    by_cases hn : n < 0
    · have hsh : emitInt n ++ rest = '-' :: (natToChars (-n).toNat ++ rest) := by
        unfold emitInt
        rw [if_pos hn, List.cons_append]
      rw [hsh]
      rw [parseFlatVal_other '-' _ (by decide) (by decide) (by decide) (by decide)]
      rw [← hsh, hpj]
      rfl
    · obtain ⟨d, ds', hds⟩ := List.exists_cons_of_ne_nil (natToChars_ne_nil n.toNat)
      have hd : isDigitCh d = true := mem_natToChars_digit n.toNat d
        (by rw [hds]; exact List.mem_cons_self d ds')
      have hdn : 48 ≤ d.toNat ∧ d.toNat ≤ 57 := by
        simpa [isDigitCh] using hd
      have hsh : emitInt n ++ rest = d :: (ds' ++ rest) := by
        unfold emitInt
        rw [if_neg hn, hds, List.cons_append]
      rw [hsh]
      rw [parseFlatVal_other d _
        (by intro h; rw [h] at hdn; revert hdn; decide)
        (by intro h; rw [h] at hdn; revert hdn; decide)
        (by intro h; rw [h] at hdn; revert hdn; decide)
        (by intro h; rw [h] at hdn; revert hdn; decide)]
      rw [← hsh, hpj]
      rfl
  | jbool b =>
    cases b with
    | true =>
      rw [show emitJVal (JVal.jbool true) ++ rest =
        't' :: 'r' :: 'u' :: 'e' :: rest from rfl]
      rw [parseFlatVal_true]
    | false =>
      rw [show emitJVal (JVal.jbool false) ++ rest =
        'f' :: 'a' :: 'l' :: 's' :: 'e' :: rest from rfl]
      rw [parseFlatVal_false]
  | jarr objs =>
    cases objs with
    | nil =>
      rw [show emitJVal (JVal.jarr []) ++ rest = '[' :: ']' :: rest from rfl]
      rw [parseFlatVal_emptyArr]
    | cons o os =>
      have hlen : (o :: os).length ≤
          (joinSep ',' ((o :: os).map emitStrObj)).length := by
        have hj := joinSep_len_ge ',' ((o :: os).map emitStrObj)
          (by intro xs hm
              rw [List.mem_map] at hm
              obtain ⟨p, _, hp⟩ := hm
              rw [← hp]
              exact emitStrObj_ne_nil p)
        rw [List.length_map] at hj
        exact hj
      obtain ⟨Y, hY⟩ : ∃ Y, joinSep ',' ((o :: os).map emitStrObj) ++ ']' :: rest =
          '{' :: Y := by
        cases os with
        | nil =>
          refine ⟨joinSep ',' (o.map emitStrPair) ++ '}' :: ']' :: rest, ?_⟩
          rw [show ([o].map emitStrObj) = [emitStrObj o] from rfl]
          rw [show joinSep ',' [emitStrObj o] = emitStrObj o from rfl]
          rw [emitStrObj_shape]
        | cons o2 os'' =>
          refine ⟨joinSep ',' (o.map emitStrPair) ++ '}' :: ',' ::
            (joinSep ',' ((o2 :: os'').map emitStrObj) ++ ']' :: rest), ?_⟩
          rw [List.map_cons]
          rw [show joinSep ',' (emitStrObj o :: (o2 :: os'').map emitStrObj) =
            emitStrObj o ++ ',' :: joinSep ',' ((o2 :: os'').map emitStrObj) from rfl]
          rw [List.append_assoc, List.cons_append]
          rw [emitStrObj_shape]
      rw [show emitJVal (JVal.jarr (o :: os)) ++ rest =
        '[' :: (joinSep ',' ((o :: os).map emitStrObj) ++ ']' :: rest) from by
        simp [emitJVal, List.append_assoc]]
      rw [hY, parseFlatVal_arr, ← hY]
      have hlx : (joinSep ',' ((o :: os).map emitStrObj) ++ ']' :: rest).length + 1 =
          (o :: os).length + ((joinSep ',' ((o :: os).map emitStrObj)).length +
            rest.length + 2 - (o :: os).length) := by
        rw [List.length_append, List.length_cons]
        omega
      rw [hlx]
      rw [parseObjList_emit (o :: os) _ rest (by simp)]
      rfl


theorem emitPair_shape (kv : String × JVal) (t : List Char) :
    emitPair kv ++ t =
      '"' :: (kv.1.data.flatMap escapeJsonChar ++ '"' :: ':' ::
        (emitJVal kv.2 ++ t)) := by
  simp [emitPair, emitStr, List.append_assoc]

theorem emitPair_ne_nil (kv : String × JVal) : emitPair kv ≠ [] := by
  simp [emitPair, emitStr]

theorem parsePairs_emit :
    ∀ (ps : List (String × JVal)) (k : Nat) (tail : List Char), ps ≠ [] →
      parsePairs (ps.length + k) (joinSep ',' (ps.map emitPair) ++ '}' :: tail) =
        some (ps, tail)
  | [], _, _, h => absurd rfl h
  | [kv], k, tail, _ => by
    rw [show ([kv].map emitPair) = [emitPair kv] from rfl]
    rw [show joinSep ',' [emitPair kv] = emitPair kv from rfl]
    rw [emitPair_shape kv ('}' :: tail)]
    rw [show [kv].length + k = k + 1 from by simp; omega]
    conv_lhs => rw [parsePairs]
    rw [show expectQuote ('"' :: (kv.1.data.flatMap escapeJsonChar ++ '"' :: ':' ::
      (emitJVal kv.2 ++ '}' :: tail))) =
      some (kv.1.data.flatMap escapeJsonChar ++ '"' :: ':' ::
        (emitJVal kv.2 ++ '}' :: tail)) from rfl]
    rw [Option.some_bind]
    rw [parseStrBody_emit kv.1, Option.some_bind]
    rw [show expectColon (':' :: (emitJVal kv.2 ++ '}' :: tail)) =
      some (emitJVal kv.2 ++ '}' :: tail) from rfl]
    rw [Option.some_bind]
    rw [parseFlatVal_emit kv.2 ('}' :: tail) (by
      intro c hc
      rw [show (('}' :: tail) : List Char).head? = some '}' from rfl] at hc
      cases hc
      decide)]
    rw [Option.some_bind]
    rw [show commaOrBrace ('}' :: tail) = some (false, tail) from rfl]
    rw [Option.some_bind]
    rfl
  | kv :: p2 :: ps'', k, tail, _ => by
    rw [List.map_cons]
    rw [show joinSep ',' (emitPair kv :: (p2 :: ps'').map emitPair) =
      emitPair kv ++ ',' :: joinSep ',' ((p2 :: ps'').map emitPair) from rfl]
    rw [List.append_assoc, List.cons_append]
    rw [emitPair_shape kv
      (',' :: (joinSep ',' ((p2 :: ps'').map emitPair) ++ '}' :: tail))]
    rw [show (kv :: p2 :: ps'').length + k = ((p2 :: ps'').length + k) + 1 from by
      rw [List.length_cons]; omega]
    conv_lhs => rw [parsePairs]
    rw [show expectQuote ('"' :: (kv.1.data.flatMap escapeJsonChar ++ '"' :: ':' ::
      (emitJVal kv.2 ++ ',' ::
        (joinSep ',' ((p2 :: ps'').map emitPair) ++ '}' :: tail)))) =
      some (kv.1.data.flatMap escapeJsonChar ++ '"' :: ':' ::
        (emitJVal kv.2 ++ ',' ::
          (joinSep ',' ((p2 :: ps'').map emitPair) ++ '}' :: tail))) from rfl]
    rw [Option.some_bind]
    rw [parseStrBody_emit kv.1, Option.some_bind]
    rw [show expectColon (':' :: (emitJVal kv.2 ++ ',' ::
      (joinSep ',' ((p2 :: ps'').map emitPair) ++ '}' :: tail))) =
      some (emitJVal kv.2 ++ ',' ::
        (joinSep ',' ((p2 :: ps'').map emitPair) ++ '}' :: tail)) from rfl]
    rw [Option.some_bind]
    rw [parseFlatVal_emit kv.2 (',' ::
      (joinSep ',' ((p2 :: ps'').map emitPair) ++ '}' :: tail)) (by
      intro c hc
      rw [show ((',' :: (joinSep ',' ((p2 :: ps'').map emitPair) ++
        '}' :: tail)) : List Char).head? = some ',' from rfl] at hc
      cases hc
      decide)]
    rw [Option.some_bind]
    rw [show commaOrBrace (',' ::
      (joinSep ',' ((p2 :: ps'').map emitPair) ++ '}' :: tail)) =
      some (true, joinSep ',' ((p2 :: ps'').map emitPair) ++ '}' :: tail) from rfl]
    rw [Option.some_bind]
    rw [show ((true : Bool), joinSep ',' ((p2 :: ps'').map emitPair) ++
      '}' :: tail).1 = true from rfl]
    rw [if_pos rfl]
    rw [parsePairs_emit (p2 :: ps'') k tail (by simp)]
    rfl

theorem parseCommentObj_emit (ps : List (String × JVal)) :
    parseCommentObj (emitObj ps) = some ps := by
  cases ps with
  | nil => rfl
  | cons kv ps' =>
    have hlen : (kv :: ps').length ≤
        (joinSep ',' ((kv :: ps').map emitPair)).length := by
      have hj := joinSep_len_ge ',' ((kv :: ps').map emitPair)
        (by intro xs hm
            rw [List.mem_map] at hm
            obtain ⟨p, _, hp⟩ := hm
            rw [← hp]
            exact emitPair_ne_nil p)
      rw [List.length_map] at hj
      exact hj
    obtain ⟨X, hX⟩ : ∃ X, joinSep ',' ((kv :: ps').map emitPair) ++ ['}'] =
        '"' :: X := by
      cases ps' with
      | nil =>
        refine ⟨kv.1.data.flatMap escapeJsonChar ++ '"' :: ':' ::
          (emitJVal kv.2 ++ ['}']), ?_⟩
        rw [show ([kv].map emitPair) = [emitPair kv] from rfl]
        rw [show joinSep ',' [emitPair kv] = emitPair kv from rfl]
        rw [emitPair_shape]
      | cons p2 ps'' =>
        refine ⟨kv.1.data.flatMap escapeJsonChar ++ '"' :: ':' ::
          (emitJVal kv.2 ++ ',' ::
            (joinSep ',' ((p2 :: ps'').map emitPair) ++ ['}'])), ?_⟩
        rw [List.map_cons]
        rw [show joinSep ',' (emitPair kv :: (p2 :: ps'').map emitPair) =
          emitPair kv ++ ',' :: joinSep ',' ((p2 :: ps'').map emitPair) from rfl]
        rw [List.append_assoc, List.cons_append]
        rw [emitPair_shape]
    rw [show emitObj (kv :: ps') =
      '{' :: (joinSep ',' ((kv :: ps').map emitPair) ++ ['}']) from rfl]
    rw [hX]
    rw [show parseCommentObj ('{' :: '"' :: X) =
      (parsePairs (('"' :: X).length + 1) ('"' :: X)).bind
        (fun p => if p.2 = [] then some p.1 else none) from rfl]
    rw [← hX]
    have hlx : (joinSep ',' ((kv :: ps').map emitPair) ++ ['}']).length + 1 =
        (kv :: ps').length + ((joinSep ',' ((kv :: ps').map emitPair)).length +
          2 - (kv :: ps').length) := by
      rw [List.length_append, List.length_singleton]
      omega
    rw [hlx]
    rw [show (joinSep ',' ((kv :: ps').map emitPair) ++ ['}'] : List Char) =
      joinSep ',' ((kv :: ps').map emitPair) ++ '}' :: [] from rfl]
    rw [parsePairs_emit (kv :: ps') _ [] (by simp)]
    rfl


theorem lookupJ_nil (k : String) : lookupJ k [] = none := rfl

theorem lookupJ_cons (k k' : String) (v : JVal) (rest : List (String × JVal)) :
    lookupJ k ((k', v) :: rest) = if k' = k then some v else lookupJ k rest := rfl

theorem lookupJ_optPairJ_append_ne {α : Type} (k k' : String) (o : Option α)
    (f : α → JVal) (R : List (String × JVal)) (h : ¬k' = k) :
    lookupJ k (optPairJ k' o f ++ R) = lookupJ k R := by
  cases o with
  | none => rfl
  | some x =>
    show lookupJ k ((k', f x) :: R) = lookupJ k R
    rw [lookupJ_cons, if_neg h]

theorem optPairJ_none {α : Type} (k : String) (f : α → JVal) :
    optPairJ k none f = [] := rfl

theorem optPairJ_some {α : Type} (k : String) (x : α) (f : α → JVal) :
    optPairJ k (some x) f = [(k, f x)] := rfl

theorem lk_file (c : ReviewComment) :
    lookupJ "file" (commentPairs c) = some (JVal.jstr c.file) := by
  simp [commentPairs, lookupJ_cons, lookupJ_optPairJ_append_ne, lookupJ_nil,
    List.append_assoc]

theorem lk_line (c : ReviewComment) :
    lookupJ "line" (commentPairs c) = some (JVal.jnum c.line) := by
  simp [commentPairs, lookupJ_cons, lookupJ_optPairJ_append_ne, lookupJ_nil,
    List.append_assoc]

theorem lk_endLine (c : ReviewComment) :
    lookupJ "endLine" (commentPairs c) = Option.map JVal.jnum c.endLine := by
  rcases hE : c.endLine with _ | x <;>
    simp [commentPairs, hE, optPairJ_none, optPairJ_some, lookupJ_cons,
      lookupJ_optPairJ_append_ne, lookupJ_nil, List.append_assoc]

theorem lk_line_content (c : ReviewComment) :
    lookupJ "line_content" (commentPairs c) = some (JVal.jstr c.line_content) := by
  simp [commentPairs, lookupJ_cons, lookupJ_optPairJ_append_ne, lookupJ_nil,
    List.append_assoc]

theorem lk_diff_hunk (c : ReviewComment) :
    lookupJ "diff_hunk" (commentPairs c) = Option.map JVal.jstr c.diff_hunk := by
  rcases hE : c.diff_hunk with _ | x <;>
    simp [commentPairs, hE, optPairJ_none, optPairJ_some, lookupJ_cons,
      lookupJ_optPairJ_append_ne, lookupJ_nil, List.append_assoc]

theorem lk_message (c : ReviewComment) :
    lookupJ "message" (commentPairs c) = some (JVal.jstr c.message) := by
  simp [commentPairs, lookupJ_cons, lookupJ_optPairJ_append_ne, lookupJ_nil,
    List.append_assoc]

theorem lk_severity (c : ReviewComment) :
    lookupJ "severity" (commentPairs c) =
      some (JVal.jstr (sevString c.severity)) := by
  simp [commentPairs, lookupJ_cons, lookupJ_optPairJ_append_ne, lookupJ_nil,
    List.append_assoc]

theorem lk_title (c : ReviewComment) :
    lookupJ "title" (commentPairs c) = Option.map JVal.jstr c.title := by
  rcases hE : c.title with _ | x <;>
    simp [commentPairs, hE, optPairJ_none, optPairJ_some, lookupJ_cons,
      lookupJ_optPairJ_append_ne, lookupJ_nil, List.append_assoc]

theorem lk_resolved (c : ReviewComment) :
    lookupJ "resolved" (commentPairs c) = Option.map JVal.jbool c.resolved := by
  rcases hE : c.resolved with _ | x <;>
    simp [commentPairs, hE, optPairJ_none, optPairJ_some, lookupJ_cons,
      lookupJ_optPairJ_append_ne, lookupJ_nil, List.append_assoc]

theorem lk_outdated (c : ReviewComment) :
    lookupJ "outdated" (commentPairs c) = Option.map JVal.jbool c.outdated := by
  rcases hE : c.outdated with _ | x <;>
    simp [commentPairs, hE, optPairJ_none, optPairJ_some, lookupJ_cons,
      lookupJ_optPairJ_append_ne, lookupJ_nil, List.append_assoc]

theorem lk_author (c : ReviewComment) :
    lookupJ "author" (commentPairs c) =
      Option.map (fun a => JVal.jstr (authorString a)) c.author := by
  rcases hE : c.author with _ | x <;>
    simp [commentPairs, hE, optPairJ_none, optPairJ_some, lookupJ_cons,
      lookupJ_optPairJ_append_ne, lookupJ_nil, List.append_assoc]

theorem lk_replies (c : ReviewComment) :
    lookupJ "replies" (commentPairs c) =
      Option.map (fun rs => JVal.jarr (rs.map replyPairs)) c.replies := by
  rcases hE : c.replies with _ | x <;>
    simp [commentPairs, hE, optPairJ_none, optPairJ_some, lookupJ_cons,
      lookupJ_optPairJ_append_ne, lookupJ_nil, List.append_assoc]

theorem lk_id (c : ReviewComment) :
    lookupJ "id" (commentPairs c) = some (JVal.jstr c.id) := by
  simp [commentPairs, lookupJ_cons, lookupJ_optPairJ_append_ne, lookupJ_nil,
    List.append_assoc]

theorem lk_created_at (c : ReviewComment) :
    lookupJ "created_at" (commentPairs c) = some (JVal.jstr c.created_at) := by
  simp [commentPairs, lookupJ_cons, lookupJ_optPairJ_append_ne, lookupJ_nil,
    List.append_assoc]

theorem optIntField_map (o : Option Int) :
    optIntField (Option.map JVal.jnum o) = some o := by
  cases o <;> rfl

theorem optStrField_map (o : Option String) :
    optStrField (Option.map JVal.jstr o) = some o := by
  cases o <;> rfl

theorem optBoolField_map (o : Option Bool) :
    optBoolField (Option.map JVal.jbool o) = some o := by
  cases o <;> rfl

theorem optAuthorField_map (o : Option Author) :
    optAuthorField (Option.map (fun a => JVal.jstr (authorString a)) o) =
      some o := by
  cases o with
  | none => rfl
  | some a => cases a <;> rfl

theorem replyOfPairs_replyPairs (r : Reply) :
    replyOfPairs (replyPairs r) = some r := rfl

theorem replies_mapM : ∀ rs : List Reply,
    (rs.map replyPairs).mapM replyOfPairs = some rs
  | [] => rfl
  | r :: rs' => by
    rw [List.map_cons, List.mapM_cons, replyOfPairs_replyPairs]
    rw [replies_mapM rs']
    rfl

theorem optRepliesField_map (o : Option (List Reply)) :
    optRepliesField (Option.map (fun rs => JVal.jarr (rs.map replyPairs)) o) =
      some o := by
  cases o with
  | none => rfl
  | some rs =>
    show optRepliesField (some (JVal.jarr (rs.map replyPairs))) = some (some rs)
    rw [show optRepliesField (some (JVal.jarr (rs.map replyPairs))) =
      ((rs.map replyPairs).mapM replyOfPairs).map some from rfl]
    rw [replies_mapM rs]
    rfl

theorem sevOfString_sevString (s : Severity) :
    sevOfString (sevString s) = some s := by
  cases s <;> rfl

theorem commentOfPairs_commentPairs (c : ReviewComment) :
    commentOfPairs (commentPairs c) = some c := by
  unfold commentOfPairs
  simp only [lk_file, lk_line, lk_endLine, lk_line_content, lk_diff_hunk,
    lk_message, lk_severity, lk_title, lk_resolved, lk_outdated, lk_author,
    lk_replies, lk_id, lk_created_at, optIntField_map, optStrField_map,
    optBoolField_map, optAuthorField_map, optRepliesField_map,
    sevOfString_sevString, asStr, asInt, Option.some_bind]
  rfl


theorem hexDigitL_ne_nl (k : Nat) (hk : k < 16) : hexDigitL k ≠ '\n' := by
  intro h
  have hv := hexVal_hexDigitL k hk
  rw [h] at hv
  rw [show hexVal '\n' = none from rfl] at hv
  exact Option.noConfusion hv

theorem nl_escape (ch : Char) : '\n' ∉ escapeJsonChar ch := by
  unfold escapeJsonChar
  split_ifs with h1 h2 h3 h4 h5 h6 h7 h8
  · decide
  · decide
  · decide
  · decide
  · decide
  · decide
  · decide
  · intro hm
    simp only [List.mem_cons, List.not_mem_nil, or_false] at hm
    rcases hm with h | h | h | h | h | h
    · exact absurd h (by decide)
    · exact absurd h (by decide)
    · exact absurd h (by decide)
    · exact absurd h (by decide)
    · exact hexDigitL_ne_nl (ch.toNat / 16) (by omega) h.symm
    · exact hexDigitL_ne_nl (ch.toNat % 16) (by omega) h.symm
  · intro hm
    simp only [List.mem_singleton] at hm
    apply h5
    rw [← hm]
    rfl

theorem nl_emitStr (s : String) : '\n' ∉ emitStr s := by
  intro hm
  rw [show emitStr s = '"' :: (s.data.flatMap escapeJsonChar ++ ['"']) from rfl] at hm
  rw [List.mem_cons] at hm
  rcases hm with heq | hm
  · exact absurd heq (by decide)
  rcases List.mem_append.1 hm with h1 | h1
  · rw [List.mem_flatMap] at h1
    obtain ⟨ch, _, hch⟩ := h1
    exact nl_escape ch hch
  · exact absurd h1 (by decide)

theorem nl_natToChars (n : Nat) : '\n' ∉ natToChars n := by
  intro hm
  have := mem_natToChars_digit n '\n' hm
  revert this
  decide

theorem nl_emitInt (n : Int) : '\n' ∉ emitInt n := by
  unfold emitInt
  split_ifs
  · intro hm
    rw [List.mem_cons] at hm
    rcases hm with heq | hm
    · exact absurd heq (by decide)
    · exact nl_natToChars _ hm
  · exact nl_natToChars _

theorem joinSep_mem (sep : Char) :
    ∀ (xss : List (List Char)) (x : Char), x ∈ joinSep sep xss →
      x = sep ∨ ∃ xs ∈ xss, x ∈ xs
  | [], x, h => absurd h (List.not_mem_nil x)
  | [xs], x, h => Or.inr ⟨xs, List.mem_singleton_self xs, h⟩
  | xs :: y :: ys, x, h => by
    rw [show joinSep sep (xs :: y :: ys) =
      xs ++ sep :: joinSep sep (y :: ys) from rfl] at h
    rcases List.mem_append.1 h with h1 | h1
    · exact Or.inr ⟨xs, List.mem_cons_self xs _, h1⟩
    · rw [List.mem_cons] at h1
      rcases h1 with h1 | h1
      · exact Or.inl h1
      · rcases joinSep_mem sep (y :: ys) x h1 with h2 | ⟨zs, hz, hx⟩
        · exact Or.inl h2
        · exact Or.inr ⟨zs, List.mem_cons_of_mem xs hz, hx⟩

theorem nl_emitStrPair (kv : String × String) : '\n' ∉ emitStrPair kv := by
  intro hm
  unfold emitStrPair at hm
  rcases List.mem_append.1 hm with h1 | h1
  · exact nl_emitStr kv.1 h1
  · rw [List.mem_cons] at h1
    rcases h1 with heq | h1
    · exact absurd heq (by decide)
    · exact nl_emitStr kv.2 h1

theorem nl_emitStrObj (o : List (String × String)) : '\n' ∉ emitStrObj o := by
  intro hm
  unfold emitStrObj at hm
  rw [List.mem_cons] at hm
  rcases hm with heq | hm
  · exact absurd heq (by decide)
  rcases List.mem_append.1 hm with h1 | h1
  · rcases joinSep_mem ',' _ _ h1 with h2 | ⟨zs, hz, hx⟩
    · exact absurd h2 (by decide)
    · rw [List.mem_map] at hz
      obtain ⟨p, _, hp⟩ := hz
      rw [← hp] at hx
      exact nl_emitStrPair p hx
  · exact absurd h1 (by decide)

theorem nl_emitJVal (v : JVal) : '\n' ∉ emitJVal v := by
  cases v with
  | jstr s => exact nl_emitStr s
  | jnum n => exact nl_emitInt n
  | jbool b => cases b <;> decide
  | jarr objs =>
    intro hm
    rw [show emitJVal (JVal.jarr objs) =
      '[' :: (joinSep ',' (objs.map emitStrObj) ++ [']']) from rfl] at hm
    rw [List.mem_cons] at hm
    rcases hm with heq | hm
    · exact absurd heq (by decide)
    rcases List.mem_append.1 hm with h1 | h1
    · rcases joinSep_mem ',' _ _ h1 with h2 | ⟨zs, hz, hx⟩
      · exact absurd h2 (by decide)
      · rw [List.mem_map] at hz
        obtain ⟨o, _, ho⟩ := hz
        rw [← ho] at hx
        exact nl_emitStrObj o hx
    · exact absurd h1 (by decide)

theorem nl_emitPair (kv : String × JVal) : '\n' ∉ emitPair kv := by
  intro hm
  unfold emitPair at hm
  rcases List.mem_append.1 hm with h1 | h1
  · exact nl_emitStr kv.1 h1
  · rw [List.mem_cons] at h1
    rcases h1 with heq | h1
    · exact absurd heq (by decide)
    · exact nl_emitJVal kv.2 h1

theorem nl_stringify (c : ReviewComment) : '\n' ∉ stringifyComment c := by
  intro hm
  rw [show stringifyComment c =
    '{' :: (joinSep ',' ((commentPairs c).map emitPair) ++ ['}']) from rfl] at hm
  rw [List.mem_cons] at hm
  rcases hm with heq | hm
  · exact absurd heq (by decide)
  rcases List.mem_append.1 hm with h1 | h1
  · rcases joinSep_mem ',' _ _ h1 with h2 | ⟨zs, hz, hx⟩
    · exact absurd h2 (by decide)
    · rw [List.mem_map] at hz
      obtain ⟨p, _, hp⟩ := hz
      rw [← hp] at hx
      exact nl_emitPair p hx
  · exact absurd h1 (by decide)

theorem nonblank_stringify (c : ReviewComment) :
    (!(trimChars (stringifyComment c)).isEmpty) = true := by
  have h := trimChars_ne_nil '{'
    (joinSep ',' ((commentPairs c).map emitPair) ++ ['}']) (by decide)
  rw [show stringifyComment c =
    '{' :: (joinSep ',' ((commentPairs c).map emitPair) ++ ['}']) from rfl]
  cases h' : (trimChars ('{' :: (joinSep ','
      ((commentPairs c).map emitPair) ++ ['}']))).isEmpty with
  | true => exact absurd (List.isEmpty_iff.1 h') h
  | false => rfl

theorem parseCommentLine_stringify (c : ReviewComment) :
    parseCommentLine (stringifyComment c) = some c := by
  unfold parseCommentLine stringifyComment
  rw [parseCommentObj_emit, Option.some_bind, commentOfPairs_commentPairs]

theorem mapM_stringify : ∀ cs : List ReviewComment,
    (cs.map stringifyComment).mapM parseCommentLine = some cs
  | [] => rfl
  | c :: cs' => by
    rw [List.map_cons, List.mapM_cons, parseCommentLine_stringify]
    rw [mapM_stringify cs']
    rfl

/-- C3: round-trip fidelity of persistence — for every finite sequence of
comments, writing it with the store's save path (newline-joined
`JSON.stringify` lines, the gzip layer being a bijective coding dropped on
both sides of the model) and reading it back with the load path reproduces
the sequence exactly: same length, same order, and every field of every
comment preserved, including non-ASCII text and message bodies containing
embedded newlines (which the emitter escapes). -/
theorem c3_round_trip (cs : List ReviewComment) :
    readJsonl (writeJsonl cs) = cs := by
  cases cs with
  | nil => rfl
  | cons c0 cs' =>
    unfold writeJsonl
    simp only [readJsonl]
    rw [splitChar_joinSep '\n' _ (by simp) (by
      intro xs hm
      rw [List.mem_map] at hm
      obtain ⟨c, _, hc⟩ := hm
      rw [← hc]
      exact nl_stringify c)]
    rw [List.filter_eq_self.mpr (by
      intro a ha
      rw [List.mem_map] at ha
      obtain ⟨c, _, hc⟩ := ha
      rw [← hc]
      exact nonblank_stringify c)]
    rw [mapM_stringify (c0 :: cs')]

end LocalPR
